import Mathlib

/-!
Verification of the disk-encryption lifecycle engine of the
dde-file-manager-extensions repository.  The C++ sources are shallowly
embedded: each function that talks to libcryptsetup, the filesystem or
files is modelled as a pure Lean function over an explicit environment
record that carries the return codes of the external library calls and
the relevant file contents.  Every modelled function also produces the
list of external operations it performed, in order, so that claims
about side effects (scratch-file creation and removal, filesystem
shrink and expansion, config-file deletion, progress emissions) can be
stated as properties of that event trace.
-/

set_option maxRecDepth 10000

namespace DiskEncrypt

/-- Modelled from the spec: the error-code enumeration lives in
diskencrypt.h, which is not part of the provided sources (only its
users are).  Spec section 3 and 7 fix the contract: 0 is success, the
deferred marker and every error kind are distinct nonzero constants
surfaced negated (the sources always return them as -kErrorXxx or
-kRebootRequired).  The concrete numerals below are arbitrary; only
distinctness, and kSuccess = 0, are used by any theorem. -/
def kSuccess : Int := 0

/-- Modelled from the spec: deferred-to-next-boot marker, a nonzero
code distinct from every error kind (spec section 3: JobResult is 0 on
success and -kRebootRequired when deferred). -/
def kRebootRequired : Int := 1

def kUserCancelled : Int := 2

def kErrorParamsInvalid : Int := 10

def kErrorDeviceEncrypted : Int := 11

def kErrorDeviceMounted : Int := 12

def kErrorCreateHeader : Int := 13

def kErrorOpenFileFailed : Int := 14

def kErrorInitCrypt : Int := 15

def kErrorSetOffset : Int := 16

def kErrorFormatLuks : Int := 17

def kErrorAddKeyslot : Int := 18

def kErrorInitReencrypt : Int := 19

def kErrorActive : Int := 20

def kErrorDeactive : Int := 21

def kErrorLoadCrypt : Int := 22

def kErrorGetReencryptFlag : Int := 23

def kErrorWrongFlags : Int := 24

def kErrorReencryptFailed : Int := 25

def kErrorWrongPassphrase : Int := 26

def kErrorBackupHeader : Int := 27

def kErrorResizeFs : Int := 28

def kErrorChangePassphraseFailed : Int := 29

def kErrorSetTokenFailed : Int := 30

def kErrorSetLabel : Int := 31

def kErrorRestoreFromFile : Int := 32

def kErrorApplyHeader : Int := 33

def kErrorDisabledMountPoint : Int := 34

def kErrorOpenFstabFailed : Int := 35

/-- Persistent requirement flags of a LUKS2 header, as read by
crypt_persistent_flags_get.  The sources only ever test the three
requirement bits CRYPT_REQUIREMENT_OFFLINE_REENCRYPT,
CRYPT_REQUIREMENT_ONLINE_REENCRYPT and CRYPT_REQUIREMENT_UNKNOWN, so
the word is modelled as three booleans. -/
structure ReqFlags where
  offline : Bool
  online : Bool
  unknown : Bool
deriving DecidableEq, Repr

/-- EncryptStatus values assigned by block_device_utils::bcDevEncryptStatus. -/
inductive EncryptStatus where
  | kStatusFinished
  | kStatusOfflineUnfinished
  | kStatusOnlineUnfinished
  | kStatusUnknown
deriving DecidableEq, Repr

/-- EncryptVersion values returned by block_device_utils::bcDevEncryptVersion. -/
inductive EncryptVersion where
  | kNotEncrypted
  | kVersionLUKS1
  | kVersionLUKS2
  | kVersionLUKSUnknown
  | kVersionUnknown
deriving DecidableEq, Repr

/-- External operations a modelled function can perform, recorded in
order in its event trace.  sigEnc and sigDec are the progress
notifications published by bcEncryptProgress and bcDecryptProgress:
they carry the device string read from the process-wide current-device
variable at emission time and the reported fraction offset / size
(modelled as a rational; the double division of the source behaves the
same on the size > 0 range the claims speak about). -/
inductive Event where
  | cryptInit
  | cryptLoad
  | flagsGet
  | setDataOffset
  | formatLuks
  | keyslotAddVolumeKey
  | keyslotAdd
  | keyslotChange
  | tokenSet
  | labelSet
  | headerBackup
  | headerRestore
  | reencryptInit
  | reencryptRun
  | activate
  | deactivate
  | scratchCreate
  | fsShrink (dev : String)
  | fsExpand (dev : String)
  | scratchRemove
  | sigEnc (dev : String) (fraction : ℚ)
  | sigDec (dev : String) (fraction : ℚ)
  | configWrite
  | configRemove
  | fstabWrite
  | crypttabWrite
  | tokenCacheWrite
deriving DecidableEq, Repr

/-- Crypto operations that mutate on-disk cryptographic state (header
contents, keyslots, tokens, label, reencryption segments, device-mapper
activation).  Context creation, header load and flag reads are
read-only and do not count as crypto work. -/
def Event.isCryptoMutation : Event → Bool
  | .setDataOffset => true
  | .formatLuks => true
  | .keyslotAddVolumeKey => true
  | .keyslotAdd => true
  | .keyslotChange => true
  | .tokenSet => true
  | .labelSet => true
  | .headerRestore => true
  | .reencryptInit => true
  | .reencryptRun => true
  | .activate => true
  | .deactivate => true
  | _ => false

/-- Process-wide mutable strings gCurrReencryptingDevice and
gCurrDecryptintDevice of diskencrypt.cpp, threaded explicitly. -/
structure Globals where
  currReenc : String
  currDec : String
deriving DecidableEq, Repr

namespace block_device_utils

/-- Environment of one block-device property probe: whether
bcCreateBlkDev could build a handler, and the udev properties read
from it. -/
structure BlkEnv where
  createOk : Bool
  idType : String
  idVersion : String
  isEncrypted : Bool
  mounted : Bool
deriving DecidableEq, Repr

/-- block_device_utils::bcDevEncryptVersion. -/
def bcDevEncryptVersion (env : BlkEnv) : EncryptVersion :=
  if !env.createOk then .kVersionUnknown
  else if env.idType = "crypto_LUKS" then
    if env.idVersion = "1" then .kVersionLUKS1
    else if env.idVersion = "2" then .kVersionLUKS2
    else .kVersionLUKSUnknown
  else if env.isEncrypted then .kVersionUnknown
  else .kNotEncrypted

/-- block_device_utils::bcIsMounted (handler failure yields false). -/
def bcIsMounted (env : BlkEnv) : Bool :=
  if !env.createOk then false else env.mounted

/-- Environment of one crypt-context query: return codes of crypt_init,
crypt_load and crypt_persistent_flags_get plus the flags word read. -/
structure CdevEnv where
  init : Int
  load : Int
  flagsGet : Int
  flags : ReqFlags
deriving DecidableEq, Repr

/-- block_device_utils::bcDevEncryptStatus.  Returns the code, the
status written through the out parameter (none when the function fails
before assigning it) and the trace of the library calls it made. -/
def bcDevEncryptStatus (env : CdevEnv) : Int × Option EncryptStatus × List Event :=
  if env.init < 0 then (-kErrorInitCrypt, none, [.cryptInit])
  else if env.load < 0 then (-kErrorLoadCrypt, none, [.cryptInit, .cryptLoad])
  else if env.flagsGet < 0 then
    (-kErrorGetReencryptFlag, none, [.cryptInit, .cryptLoad, .flagsGet])
  else
    let st : EncryptStatus :=
      if env.flags.unknown then .kStatusUnknown
      else if env.flags.online then .kStatusOnlineUnfinished
      else if env.flags.offline then .kStatusOfflineUnfinished
      else .kStatusFinished
    (kSuccess, some st, [.cryptInit, .cryptLoad, .flagsGet])

end block_device_utils

namespace disk_encrypt_funcs

open block_device_utils

/-- Environment of disk_encrypt_funcs::bcPrepareHeaderFile: whether the
exclusive open of the scratch file succeeds, and whether the 32 MiB
posix_fallocate succeeds. -/
structure PrepareHeaderEnv where
  openOk : Bool
  fallocOk : Bool
deriving DecidableEq, Repr

/-- disk_encrypt_funcs::bcPrepareHeaderFile.  Returns the code, whether
the out parameter headerPath was assigned (it is assigned only when
both steps succeed) and the events.  Note: when the exclusive open
succeeds the scratch file exists from that point on, and a subsequent
posix_fallocate failure returns without removing it. -/
def bcPrepareHeaderFile (env : PrepareHeaderEnv) : Int × Bool × List Event :=
  if !env.openOk then (-kErrorOpenFileFailed, false, [])
  else if !env.fallocOk then (-kErrorCreateHeader, false, [.scratchCreate])
  else (kSuccess, true, [.scratchCreate])

/-- Environment of disk_encrypt_funcs::bcDoSetupHeader: the scratch
preparation outcome, and the return codes of every libcryptsetup call
made on the scratch header, in source order.  recKey is the recovery
key produced by disk_encrypt_utils::bcExpRecFile (empty string when
generation or export failed, which the source treats as absence). -/
structure SetupEnv where
  device : String
  prepare : PrepareHeaderEnv
  cryptInit : Int
  setOffset : Int
  format : Int
  addKeyslot : Int
  recKey : String
  addRecKeyslot : Int
  reencInit : Int
  activate : Int
  deactivate : Int
deriving DecidableEq, Repr

/-- Rollback performed by the FinallyUtil of bcDoSetupHeader when the
tracked return value is negative at scope exit: remove the scratch file
then re-expand the filesystem of the raw device. -/
def setupRollback (dev : String) : List Event :=
  [.scratchRemove, .fsExpand dev]

/-- disk_encrypt_funcs::bcDoSetupHeader.  Returns the code, whether the
headerPath out parameter was assigned, and the event trace.  The
FinallyUtil rollback fires exactly on the paths whose locally tracked
return value is negative, which are all the failure returns after
crypt_init; the early return on an unassigned localPath happens before
the FinallyUtil exists, so a posix_fallocate failure leaves the created
scratch file in place. -/
def bcDoSetupHeader (env : SetupEnv) : Int × Bool × List Event :=
  let (_, pathSet, ev0) := bcPrepareHeaderFile env.prepare
  if !pathSet then (-kErrorCreateHeader, false, ev0)
  else
    let ev1 := ev0 ++ [.fsShrink env.device]
    let rb := setupRollback env.device
    if env.cryptInit < 0 then (-kErrorInitCrypt, false, ev1 ++ [.cryptInit] ++ rb)
    else if env.setOffset < 0 then
      (-kErrorSetOffset, false, ev1 ++ [.cryptInit, .setDataOffset] ++ rb)
    else if env.format < 0 then
      (-kErrorFormatLuks, false, ev1 ++ [.cryptInit, .setDataOffset, .formatLuks] ++ rb)
    else if env.addKeyslot < 0 then
      (-kErrorAddKeyslot, false,
        ev1 ++ [.cryptInit, .setDataOffset, .formatLuks, .keyslotAddVolumeKey] ++ rb)
    else
      let evRec : List Event := if env.recKey ≠ "" then [.keyslotAddVolumeKey] else []
      let ev2 := ev1 ++ [.cryptInit, .setDataOffset, .formatLuks, .keyslotAddVolumeKey] ++ evRec
      if env.reencInit < 0 then (-kErrorInitReencrypt, false, ev2 ++ [.reencryptInit] ++ rb)
      else if env.activate < 0 then
        (-kErrorActive, false, ev2 ++ [.reencryptInit, .activate] ++ rb)
      else
        let mapper := "/dev/mapper/dm-" ++ env.device.drop 5
        let ev3 := ev2 ++ [.reencryptInit, .activate, .fsExpand mapper, .deactivate]
        if env.deactivate < 0 then (-kErrorDeactive, false, ev3 ++ rb)
        else (kSuccess, true, ev3)

/-- Environment of disk_encrypt_funcs::bcInitHeaderFile: the outcome of
the parameter validation (stat and access based, modelled as its
boolean result), the block-device probe of the target and the header
setup environment. -/
structure InitHeaderEnv where
  paramsValid : Bool
  blk : BlkEnv
  setup : SetupEnv
deriving DecidableEq, Repr

/-- disk_encrypt_funcs::bcInitHeaderFile. -/
def bcInitHeaderFile (env : InitHeaderEnv) : Int × Bool × List Event :=
  if !env.paramsValid then (-kErrorParamsInvalid, false, [])
  else if bcDevEncryptVersion env.blk ≠ .kNotEncrypted then
    (-kErrorDeviceEncrypted, false, [])
  else if bcIsMounted env.blk then (-kErrorDeviceMounted, false, [])
  else bcDoSetupHeader env.setup

/-- Environment of disk_encrypt_funcs::bcInitHeaderDevice: return codes
of crypt_init on the raw device and of crypt_header_restore. -/
structure InitHeaderDeviceEnv where
  init : Int
  restore : Int
deriving DecidableEq, Repr

/-- disk_encrypt_funcs::bcInitHeaderDevice.  The FinallyUtil always
removes the scratch header file at scope exit. -/
def bcInitHeaderDevice (env : InitHeaderDeviceEnv) : Int × List Event :=
  if env.init < 0 then (-kErrorInitCrypt, [.cryptInit, .scratchRemove])
  else if env.restore < 0 then
    (-kErrorRestoreFromFile, [.cryptInit, .headerRestore, .scratchRemove])
  else (kSuccess, [.cryptInit, .headerRestore, .scratchRemove])

/-- Environment of disk_encrypt_funcs::bcResumeReencrypt: the crypt
context query codes and flags, the reencryption codes, and the list of
size-offset pairs with which the library invokes the progress callback
during crypt_reencrypt. -/
structure ResumeEnv where
  cdev : CdevEnv
  reencInit : Int
  progress : List (Nat × Nat)
  reencrypt : Int
  activate : Int
  deactivate : Int
deriving DecidableEq, Repr

/-- Result of a modelled run of bcResumeReencrypt. -/
structure ResumeOut where
  code : Int
  g : Globals
  events : List Event
deriving DecidableEq, Repr

/-- disk_encrypt_funcs::bcEncryptProgress: emits the process-wide
current reencrypting device and offset / size. -/
def bcEncryptProgress (g : Globals) (size offset : Nat) : Event :=
  .sigEnc g.currReenc ((offset : ℚ) / (size : ℚ))

/-- disk_encrypt_funcs::bcDecryptProgress: emits the process-wide
current decrypting device and offset / size. -/
def bcDecryptProgress (g : Globals) (size offset : Nat) : Event :=
  .sigDec g.currDec ((offset : ℚ) / (size : ℚ))

/-- disk_encrypt_funcs::bcResumeReencrypt.  Sets
gCurrReencryptingDevice to the device on entry; its FinallyUtil clears
gCurrDecryptintDevice (so in the source) at every exit.  Refuses with
kErrorWrongFlags unless the reloaded persistent requirement flags carry
the online-reencrypt bit, before any reencryption call is made. -/
def bcResumeReencrypt (g : Globals) (device : String) (expandFs : Bool)
    (env : ResumeEnv) : ResumeOut :=
  let g1 : Globals := { g with currReenc := device }
  let gf : Globals := { g1 with currDec := "" }
  if env.cdev.init < 0 then ⟨-kErrorInitCrypt, gf, [.cryptInit]⟩
  else if env.cdev.load < 0 then ⟨-kErrorLoadCrypt, gf, [.cryptInit, .cryptLoad]⟩
  else if env.cdev.flagsGet < 0 then
    ⟨-kErrorGetReencryptFlag, gf, [.cryptInit, .cryptLoad, .flagsGet]⟩
  else if !env.cdev.flags.online then
    ⟨-kErrorWrongFlags, gf, [.cryptInit, .cryptLoad, .flagsGet]⟩
  else if env.reencInit < 0 then
    ⟨-kErrorInitReencrypt, gf, [.cryptInit, .cryptLoad, .flagsGet, .reencryptInit]⟩
  else
    let sigs := env.progress.map fun p => bcEncryptProgress g1 p.1 p.2
    let ev2 := [.cryptInit, .cryptLoad, .flagsGet, .reencryptInit, .reencryptRun] ++ sigs
    if env.reencrypt < 0 then ⟨-kErrorReencryptFailed, gf, ev2⟩
    else if !expandFs then ⟨kSuccess, gf, ev2⟩
    else if env.activate < 0 then ⟨-kErrorActive, gf, ev2 ++ [.activate]⟩
    else
      let mapper := "/dev/mapper/dm-" ++ device.drop 5
      let ev3 := ev2 ++ [.activate, .fsExpand mapper, .deactivate]
      if env.deactivate < 0 then ⟨-kErrorDeactive, gf, ev3⟩
      else ⟨kSuccess, gf, ev3⟩

/-- Environment of disk_encrypt_funcs::bcBackupCryptHeader. -/
structure BackupEnv where
  init : Int
  backup : Int
deriving DecidableEq, Repr

/-- disk_encrypt_funcs::bcBackupCryptHeader. -/
def bcBackupCryptHeader (env : BackupEnv) : Int × List Event :=
  if env.init < 0 then (-kErrorInitCrypt, [.cryptInit])
  else if env.backup < 0 then (-kErrorBackupHeader, [.cryptInit, .headerBackup])
  else (kSuccess, [.cryptInit, .headerBackup])

/-- Environment of disk_encrypt_funcs::bcDecryptDevice. -/
structure DecryptEnv where
  backup : BackupEnv
  cdev : CdevEnv
  reencInit : Int
  progress : List (Nat × Nat)
  reencrypt : Int
  recoverOk : Bool
deriving DecidableEq, Repr

/-- disk_encrypt_funcs::bcDecryptDevice.  Sets gCurrDecryptintDevice to
the device on entry; the FinallyUtil clears it at every exit.  Refuses
with kErrorWrongFlags when the persistent requirement flags still carry
either reencrypt-unfinished bit. -/
def bcDecryptDevice (g : Globals) (device : String) (env : DecryptEnv) :
    Int × Globals × List Event :=
  let g1 : Globals := { g with currDec := device }
  let gf : Globals := { g1 with currDec := "" }
  let (bc, bev) := bcBackupCryptHeader env.backup
  if bc < 0 then (-kErrorBackupHeader, gf, bev)
  else if env.cdev.init < 0 then (-kErrorInitCrypt, gf, bev ++ [.cryptInit])
  else if env.cdev.load < 0 then (-kErrorLoadCrypt, gf, bev ++ [.cryptInit, .cryptLoad])
  else if env.cdev.flagsGet < 0 then
    (-kErrorGetReencryptFlag, gf, bev ++ [.cryptInit, .cryptLoad, .flagsGet])
  else if env.cdev.flags.offline || env.cdev.flags.online then
    (-kErrorWrongFlags, gf, bev ++ [.cryptInit, .cryptLoad, .flagsGet])
  else if env.reencInit < 0 then
    (-kErrorWrongPassphrase, gf, bev ++ [.cryptInit, .cryptLoad, .flagsGet, .reencryptInit])
  else
    let sigs := env.progress.map fun p => bcDecryptProgress g1 p.1 p.2
    let ev2 := bev ++ [.cryptInit, .cryptLoad, .flagsGet, .reencryptInit, .reencryptRun] ++ sigs
    if env.reencrypt < 0 then (-kErrorReencryptFailed, gf, ev2)
    else if !env.recoverOk then (-kErrorResizeFs, gf, ev2)
    else (kSuccess, gf, ev2)

/-- Environment of the trace model of disk_encrypt_funcs::bcChangePassphrase:
codes of crypt_init_data_device, crypt_load and
crypt_keyslot_change_by_passphrase (the latter is the new keyslot index
when nonnegative). -/
structure ChgEnv where
  init : Int
  load : Int
  change : Int
deriving DecidableEq, Repr

/-- Trace model of disk_encrypt_funcs::bcChangePassphrase, used by the
boot-time resume worker.  Returns (code, keyslot out parameter,
events). -/
def bcChangePassphraseT (env : ChgEnv) : Int × Int × List Event :=
  if env.init < 0 then (-kErrorInitCrypt, 0, [.cryptInit])
  else if env.load < 0 then (-kErrorLoadCrypt, 0, [.cryptInit, .cryptLoad])
  else if env.change < 0 then
    (-kErrorChangePassphraseFailed, 0, [.cryptInit, .cryptLoad, .keyslotChange])
  else (kSuccess, env.change, [.cryptInit, .cryptLoad, .keyslotChange])

/-- Trace model of disk_encrypt_funcs::bcChangePassphraseByRecKey
(crypt_keyslot_add_by_passphrase under the hood). -/
def bcChangePassphraseByRecKeyT (env : ChgEnv) : Int × Int × List Event :=
  if env.init < 0 then (-kErrorInitCrypt, 0, [.cryptInit])
  else if env.load < 0 then (-kErrorLoadCrypt, 0, [.cryptInit, .cryptLoad])
  else if env.change < 0 then
    (-kErrorAddKeyslot, 0, [.cryptInit, .cryptLoad, .keyslotAdd])
  else (kSuccess, env.change, [.cryptInit, .cryptLoad, .keyslotAdd])

/-- Environment of disk_encrypt_funcs::bcSetToken. -/
structure TokenEnv where
  init : Int
  load : Int
  set : Int
deriving DecidableEq, Repr

/-- disk_encrypt_funcs::bcSetToken: an empty token is accepted
immediately without touching the device. -/
def bcSetToken (token : String) (env : TokenEnv) : Int × List Event :=
  if token = "" then (0, [])
  else if env.init < 0 then (-kErrorInitCrypt, [.cryptInit])
  else if env.load < 0 then (-kErrorLoadCrypt, [.cryptInit, .cryptLoad])
  else if env.set < 0 then (-kErrorSetTokenFailed, [.cryptInit, .cryptLoad, .tokenSet])
  else (0, [.cryptInit, .cryptLoad, .tokenSet])

/-- Environment of disk_encrypt_funcs::bcSetLabel. -/
structure LabelEnv where
  init : Int
  load : Int
  set : Int
deriving DecidableEq, Repr

/-- disk_encrypt_funcs::bcSetLabel. -/
def bcSetLabel (env : LabelEnv) : Int × List Event :=
  if env.init < 0 then (-kErrorInitCrypt, [.cryptInit])
  else if env.load < 0 then (-kErrorLoadCrypt, [.cryptInit, .cryptLoad])
  else if env.set < 0 then (-kErrorSetLabel, [.cryptInit, .cryptLoad, .labelSet])
  else (kSuccess, [.cryptInit, .cryptLoad, .labelSet])

end disk_encrypt_funcs

/-! String machinery shared by the boot-table models.  File contents are
lists of characters; QByteArray::split on a character is List.splitOnP
on equality with it, QString::split on the regular expression matching
a space or tab with SkipEmptyParts is splitOnP on the whitespace
predicate followed by dropping empty parts, and QString::contains is
contiguous-substring search. -/

/-- Whitespace predicate of the field-splitting regular expressions of
setFstabTimeout and updateCrypttab (a space or a tab). -/
def isWs (c : Char) : Bool := c == ' ' || c == '\t'

/-- QString::split(regex of space or tab, SkipEmptyParts). -/
def splitWs (l : List Char) : List (List Char) :=
  (l.splitOnP isWs).filter fun x => !x.isEmpty

/-- QString::contains for a contiguous substring. -/
def hasSub (needle : List Char) : List Char → Bool
  | [] => needle.isEmpty
  | c :: rest => needle.isPrefixOf (c :: rest) || hasSub needle rest

/-- QString::startsWith for the single character # used by the
crypttab comment filter. -/
def startsHash : List Char → Bool
  | [] => false
  | c :: _ => c == '#'

/-- Join with a separator character, as QByteArrayList::join and
QStringList::join with a one-character separator. -/
def joinSep (sep : Char) : List (List Char) → List Char
  | [] => []
  | [x] => x
  | x :: y :: t => x ++ sep :: joinSep sep (y :: t)

/-- Append each line followed by the separator, the shape produced by
the per-line newContents += line; newContents.append(newline) loop of
setFstabTimeout. -/
def joinLines (sep : Char) (ls : List (List Char)) : List Char :=
  ls.foldr (fun l acc => l ++ sep :: acc) []

namespace PrencryptWorker

/-- Fixed option string x-systemd.device-timeout=0 appended to the
options field of the matching fstab line. -/
def kTimeoutParam : List Char := "x-systemd.device-timeout=0".toList

/-- Match condition of the fstab scan: exactly six fields and the first
field equal to the device path or to the UUID= form. -/
def fstabMatch (dev uuid : List Char) (items : List (List Char)) : Bool :=
  items.length == 6 && (items.getD 0 [] == dev || items.getD 0 [] == uuid)

/-- One iteration of the line-by-line fstab scan of
PrencryptWorker::setFstabTimeout, taking the current foundItem flag:
while the flag is still unset, a matching line has the timeout option
appended to its fourth field unless already present, and only that
append sets the flag. -/
def annotateStep (dev uuid : List Char) (b : Bool) (line : List Char) :
    List (List Char) × Bool :=
  let items := splitWs line
  if fstabMatch dev uuid items && !b then
    if !hasSub kTimeoutParam (items.getD 3 []) then
      (items.set 3 (items.getD 3 [] ++ ',' :: kTimeoutParam), true)
    else (items, b)
  else (items, b)

/-- Fold of annotateStep over the lines, threading the flag. -/
def annotateLines (dev uuid : List Char) :
    List (List Char) → Bool → List (List (List Char)) × Bool
  | [], found => ([], found)
  | line :: rest, found =>
    let step := annotateStep dev uuid found line
    let r := annotateLines dev uuid rest step.2
    (step.1 :: r.1, r.2)

/-- PrencryptWorker::setFstabTimeout.  Returns the resulting file
contents and whether the file was rewritten; the whole file is
rewritten, every line re-joined from its fields with tabs, exactly when
the scan appended the timeout option somewhere. -/
def setFstabTimeout (dev uuid : List Char) (content : List Char) : List Char × Bool :=
  let lines := content.splitOnP (· == '\n')
  let r := annotateLines dev uuid lines false
  if r.2 then (joinLines '\n' (r.1.map (joinSep '\t')), true)
  else (content, false)

/-- Keys and string values of the JSON object assembled by
PrencryptWorker::writeEncryptParams.  The tpm-config value is a nested
JSON object in the source; the claims only inspect the key set, so the
value column is carried as the raw string it was parsed from. -/
def encModeName : Nat → String
  | 0 => "pin"
  | 1 => "tpm-pin"
  | 2 => "tpm"
  | _ => ""

/-- One left-to-right pass of QString::replace of double slash by a
single slash, applied to the exported recovery-key path. -/
def squashDoubleSlash : List Char → List Char
  | '/' :: '/' :: rest => '/' :: squashDoubleSlash rest
  | c :: rest => c :: squashDoubleSlash rest
  | [] => []

/-- Parameters of a prepare-encrypt request, from the QVariantMap keys
the worker reads. -/
structure PrepParams where
  device : String
  uuid : String
  deviceName : String
  mountPoint : String
  cipher : String
  encMode : Nat
  recoveryExportPath : String
  tpmConfig : String
  tpmToken : String
  passphrase : String
  initParamsOnly : Bool
deriving DecidableEq, Repr

/-- Recovery-key export path recorded in the job config. -/
def expRecPath (p : PrepParams) : String :=
  if p.recoveryExportPath = "" then ""
  else
    String.mk (squashDoubleSlash
      (p.recoveryExportPath ++ "/recovery_key_" ++ p.device.drop 5 ++ ".txt").toList)

/-- PrencryptWorker::writeEncryptParams, the JSON object written to the
job-config file encrypt.json, as an ordered key-value list. -/
def encryptParamsObj (p : PrepParams) : List (String × String) :=
  [("volume", "dm-" ++ p.device.drop 5),
   ("device", "UUID=" ++ p.uuid),
   ("device-path", p.device),
   ("device-name", p.deviceName),
   ("device-mountpoint", p.mountPoint),
   ("cipher", p.cipher ++ "-xts-plain64"),
   ("key-size", "256"),
   ("mode", encModeName p.encMode),
   ("recoverykey-path", expRecPath p),
   ("tpm-config", p.tpmConfig)]

/-- Environment of PrencryptWorker::run: the request parameters,
whether the mount point is on the disabled list kDisabledEncryptPath
(the list itself lives in the missing header), whether the job-config
file could be opened for writing, the fstab contents, the validation
outcome and the environments of the header functions the non-deferred
path calls. -/
structure PrepEnv where
  params : PrepParams
  mptDisabled : Bool
  writeOk : Bool
  fstab : List Char
  validateOk : Bool
  initHeader : disk_encrypt_funcs.InitHeaderEnv
  initDevice : disk_encrypt_funcs.InitHeaderDeviceEnv
  tokenCacheOk : Bool
deriving Repr

/-- Result of a modelled run of PrencryptWorker::run. -/
structure PrepRun where
  exitCode : Int
  events : List Event
  fstabOut : List Char
deriving Repr

/-- PrencryptWorker::writeEncryptParams return code: -kSuccess on a
successful write (so exactly 0), -kErrorOpenFileFailed when the file
cannot be opened. -/
def writeEncryptParamsCode (writeOk : Bool) : Int :=
  if writeOk then -kSuccess else -kErrorOpenFileFailed

open disk_encrypt_funcs in
/-- PrencryptWorker::run. -/
def run (env : PrepEnv) : PrepRun :=
  if env.mptDisabled then ⟨-kErrorDisabledMountPoint, [], env.fstab⟩
  else if env.params.initParamsOnly then
    let wcode := writeEncryptParamsCode env.writeOk
    let wev : List Event := if env.writeOk then [.configWrite] else []
    let f := setFstabTimeout env.params.device.toList
      ("UUID=" ++ env.params.uuid).toList env.fstab
    ⟨wcode, wev ++ (if f.2 then [.fstabWrite] else []), f.1⟩
  else if !env.validateOk then ⟨-kErrorParamsInvalid, [], env.fstab⟩
  else
    let (code, pathSet, ev) := bcInitHeaderFile env.initHeader
    if code ≠ kSuccess || !pathSet then ⟨-kErrorCreateHeader, ev, env.fstab⟩
    else
      let (c2, ev2) := bcInitHeaderDevice env.initDevice
      if c2 ≠ 0 then ⟨-kErrorApplyHeader, ev ++ ev2, env.fstab⟩
      else if env.params.tpmToken ≠ "" then
        ⟨kSuccess, ev ++ ev2 ++ (if env.tokenCacheOk then [.tokenCacheWrite] else []),
          env.fstab⟩
      else ⟨kSuccess, ev ++ ev2, env.fstab⟩

end PrencryptWorker

namespace DecryptWorker

/-- DecryptWorker::writeDecryptParams return code: -kRebootRequired on
a successful write of decrypt.json, -kErrorOpenFileFailed otherwise. -/
def writeDecryptParamsCode (writeOk : Bool) : Int :=
  if writeOk then -kRebootRequired else -kErrorOpenFileFailed

end DecryptWorker

namespace ChgPassWorker

/-- Modelled from the spec: LUKS keyslot semantics of the trusted
cryptographic-volume library, consumed at its API contract (spec
sections 1 and 6).  A device is the list of credentials that currently
unlock it.  crypt_keyslot_change_by_passphrase replaces the supplied
credential with the new one and fails with a negative code when the
supplied credential unlocks nothing. -/
def keyslotChangeByPassphrase (creds : List String) (old new : String) :
    Int × List String :=
  if old ∈ creds then (kSuccess, new :: creds.erase old)
  else (-kErrorChangePassphraseFailed, creds)

/-- Modelled from the spec: crypt_keyslot_add_by_passphrase adds the
new credential to a free keyslot when the supplied credential unlocks,
the path taken by bcChangePassphraseByRecKey. -/
def keyslotAddByPassphrase (creds : List String) (old new : String) :
    Int × List String :=
  if old ∈ creds then (kSuccess, new :: creds) else (-kErrorAddKeyslot, creds)

/-- Environment of ChgPassWorker::run: the request fields and the
return code of the bcSetToken call performed when a trust-module token
is bound (the token rewritten with the new keyslot index is a JSON
object rendering and therefore never the empty string, so bcSetToken
does not take its empty-token early return). -/
structure ChgPassEnv where
  oldPass : String
  newPass : String
  token : String
  useRecKey : Bool
  tokenWrite : Int
deriving DecidableEq, Repr

/-- ChgPassWorker::run over the keyslot-semantics device model.
Returns the final exit code and the credential state of the device. -/
def run (env : ChgPassEnv) (creds : List String) : Int × List String :=
  let first :=
    if env.useRecKey then keyslotAddByPassphrase creds env.oldPass env.newPass
    else keyslotChangeByPassphrase creds env.oldPass env.newPass
  if env.token ≠ "" ∧ first.1 = 0 then
    let r2 := env.tokenWrite
    if r2 ≠ 0 then
      let rb := keyslotChangeByPassphrase first.2 env.newPass env.oldPass
      (r2, rb.2)
    else (r2, first.2)
  else first

end ChgPassWorker

namespace DiskEncryptDBus

/-- Environment of DiskEncryptDBus::updateCrypttab: the probe
isEncrypted(target, source), an oracle over the first two fields of a
line, backed by the device enumeration; it is fixed across the run (0
means positively not encrypted, 1 encrypted, negative codes mean the
device could not be resolved or probed). -/
structure CrypttabEnv where
  isEnc : List Char → List Char → Int

/-- A crypttab line survives the sweep when it is a comment, or has at
least two fields and its device does not probe as not-encrypted. -/
def lineKeep (env : CrypttabEnv) (line : List Char) : Bool :=
  if startsHash line then true
  else
    let items := splitWs line
    if items.length < 2 then false
    else !(env.isEnc (items.getD 0 []) (items.getD 1 []) == 0)

/-- A line sets the cryptUpdated flag exactly when it is pruned as
not-encrypted: not a comment, at least two fields, probe result 0. -/
def linePruned (env : CrypttabEnv) (line : List Char) : Bool :=
  !startsHash line && 2 ≤ (splitWs line).length
    && (env.isEnc ((splitWs line).getD 0 []) ((splitWs line).getD 1 []) == 0)

/-- DiskEncryptDBus::updateCrypttab.  Returns the resulting file
contents and whether the file was rewritten; the rewrite (kept lines
joined by newlines plus a trailing newline) happens exactly when some
line was pruned as not-encrypted: removals of malformed short lines do
not set the flag and are lost when nothing else changed. -/
def updateCrypttab (env : CrypttabEnv) (content : List Char) : List Char × Bool :=
  let lines := content.splitOnP (· == '\n')
  let kept := lines.filter (lineKeep env)
  if lines.any (linePruned env) then (joinSep '\n' kept ++ ['\n'], true)
  else (content, false)

end DiskEncryptDBus

namespace ReencryptWorkerV2

open disk_encrypt_funcs block_device_utils

/-- Persisted job configuration read back by
disk_encrypt_utils::bcReadEncryptConfig from encrypt.json. -/
structure EncryptConfig where
  cipher : String
  device : String
  mountPoint : String
  deviceName : String
  devicePath : String
  keySize : String
  mode : String
  recoveryPath : String
  clearDev : String
deriving DecidableEq, Repr

/-- Parameters supplied to the resume worker through
setEncryptParams. -/
structure V2Params where
  device : String
  passphrase : String
  tpmToken : String
  recoveryExportPath : String
  backingDevUUID : String
deriving DecidableEq, Repr

/-- ReencryptWorkerV2::validateParams over supplied parameters (none
models the empty map). -/
def validateParams (config : EncryptConfig) (params : Option V2Params) : Bool :=
  match params with
  | none => false
  | some p =>
    if p.device ≠ config.devicePath then false
    else if p.passphrase = "" then false
    else true

/-- Environment of the crypttab update of the resume worker. -/
structure V2CryptEnv where
  content : List Char
  openR : Bool
  openW : Bool
deriving Repr

/-- Literal auto-unlock tag appended by the resume worker to the
matching crypttab line. -/
def kTpmAuto : List Char := "tpm2-device=auto".toList

/-- Scan of ReencryptWorkerV2::updateCrypttab: the first line
containing the UUID= source needs the tag exactly when it does not
already contain it; the loop breaks at that first line either way. -/
def crypttabNeedsTag (srcDev : List Char) : List (List Char) → Bool
  | [] => false
  | line :: rest =>
    if hasSub srcDev line then !hasSub kTpmAuto line
    else crypttabNeedsTag srcDev rest

/-- ReencryptWorkerV2::updateCrypttab.  Pure event model: the function
only logs on failure and never reports a code, so its only observable
effects are the possible crypttab rewrite. -/
def updateCrypttabV2 (tpmToken backingUUID : String) (env : V2CryptEnv) : List Event :=
  if tpmToken = "" then []
  else if !env.openR then []
  else if crypttabNeedsTag ("UUID=" ++ backingUUID).toList
      (env.content.splitOnP (· == '\n')) then
    if env.openW then [.crypttabWrite] else []
  else []

/-- Environment of ReencryptWorkerV2::run: the loaded job config, the
supplied parameters, and the environments of every call the run makes,
in order. -/
structure V2Env where
  config : EncryptConfig
  params : V2Params
  statusEnv : CdevEnv
  resumeEnv : ResumeEnv
  chgPass : ChgEnv
  tokenPass : TokenEnv
  recKey : String
  chgRec : ChgEnv
  tokenRec : TokenEnv
  labelEnv : LabelEnv
  crypttab : V2CryptEnv
deriving Repr

/-- ReencryptWorkerV2::hasUnfinishedOnlineEncryption: false when the
config names no device, when the status query fails, or when the live
status is anything other than OnlineReencryptUnfinished. -/
def hasUnfinishedOnlineEncryption (env : V2Env) : Bool × List Event :=
  if env.config.devicePath = "" then (false, [])
  else
    let (code, st, ev) := bcDevEncryptStatus env.statusEnv
    if code ≠ kSuccess then (false, ev)
    else
      match st with
      | some .kStatusOnlineUnfinished => (true, ev)
      | _ => (false, ev)

/-- ReencryptWorkerV2::updateTokenKeyslots rewrites the keyslots array
inside the token JSON; the claims depend only on the output being
nonempty exactly when the input is (a QJsonDocument rendering of an
object is never empty), so the payload rewrite is carried as the
identity on the raw string. -/
def updateTokenKeyslots (token : String) (_keyslot : Int) : String := token

/-- Stand-in for the literal recovery-key token JSON written by
setRecoveryKey; bcSetToken only inspects its nonemptiness. -/
def recTokenJson : String := "usec-recoverykey-token"

/-- ReencryptWorkerV2::setPassphrase: sets the exit code and returns
early on a failed keyslot change or token write; the caller run does
not observe the early return. -/
def setPassphrase (env : V2Env) : Option Int × List Event :=
  let (ret, slot, ev) := bcChangePassphraseT env.chgPass
  if ret ≠ kSuccess then (some ret, ev)
  else if env.params.tpmToken ≠ "" then
    let tk := updateTokenKeyslots env.params.tpmToken slot
    let r2 := bcSetToken tk env.tokenPass
    if r2.1 ≠ kSuccess then (some r2.1, ev ++ r2.2) else (none, ev ++ r2.2)
  else (none, ev)

/-- ReencryptWorkerV2::setRecoveryKey: silently skipped when no export
path was supplied or no key could be generated; failures of the keyslot
add or the token write set the exit code. -/
def setRecoveryKey (env : V2Env) : Option Int × List Event :=
  if env.params.recoveryExportPath = "" then (none, [])
  else if env.recKey = "" then (none, [])
  else
    let (ret, _slot, ev) := bcChangePassphraseByRecKeyT env.chgRec
    if ret ≠ kSuccess then (some ret, ev)
    else
      let r2 := bcSetToken recTokenJson env.tokenRec
      if r2.1 ≠ kSuccess then (some r2.1, ev ++ r2.2) else (none, ev ++ r2.2)

/-- Result of a modelled run of ReencryptWorkerV2::run. -/
structure V2Run where
  exitCode : Int
  emitted : Option (String × Int)
  removedConfig : Bool
  events : List Event
deriving Repr

/-- ReencryptWorkerV2::run.  The parameter-request polling loop between
the status check and the resume call only emits request signals and
sleeps, so it is modelled as already exited; when the resume succeeds
the four follow-up steps run unconditionally and the job-config file is
removed at the end regardless of their outcomes, each failed step
merely overwriting the exit code. -/
def run (g : Globals) (env : V2Env) : V2Run :=
  let h := hasUnfinishedOnlineEncryption env
  if !h.1 then ⟨kSuccess, none, false, h.2⟩
  else
    let r := bcResumeReencrypt g env.config.devicePath false env.resumeEnv
    if r.code = kSuccess then
      let s1 := setPassphrase env
      let s2 := setRecoveryKey env
      let ev3 := (bcSetLabel env.labelEnv).2
      let ev4 := updateCrypttabV2 env.params.tpmToken env.params.backingDevUUID env.crypttab
      let exit : Int :=
        match s2.1, s1.1 with
        | some v, _ => v
        | none, some v => v
        | none, none => kSuccess
      ⟨exit, some (env.config.devicePath, r.code), true,
        h.2 ++ r.events ++ s1.2 ++ s2.2 ++ ev3 ++ ev4 ++ [.configRemove]⟩
    else ⟨r.code, some (env.config.devicePath, r.code), false, h.2 ++ r.events⟩

end ReencryptWorkerV2

/-! Helper lemmas about the string machinery. -/

theorem splitOnP_all_not (p : Char → Bool) (l : List Char) :
    ∀ x ∈ l.splitOnP p, ∀ c ∈ x, p c = false := by
  induction l with
  | nil =>
    intro x hx c hc
    rw [List.splitOnP_nil] at hx
    simp only [List.mem_singleton] at hx
    subst hx
    cases hc
  | cons a t ih =>
    intro x hx c hc
    rw [List.splitOnP_cons] at hx
    by_cases hpa : p a
    · rw [if_pos hpa] at hx
      rcases List.mem_cons.mp hx with h1 | h1
      · subst h1; cases hc
      · exact ih x h1 c hc
    · rw [if_neg hpa] at hx
      rcases hsp : t.splitOnP p with _ | ⟨h0, tl⟩
      · exact absurd hsp (List.splitOnP_ne_nil p t)
      · rw [hsp, List.modifyHead_cons] at hx
        rcases List.mem_cons.mp hx with h1 | h1
        · subst h1
          rcases List.mem_cons.mp hc with hc1 | hc1
          · subst hc1; exact Bool.eq_false_iff.mpr hpa
          · exact ih h0 (hsp ▸ List.mem_cons_self h0 tl) c hc1
        · exact ih x (hsp ▸ List.mem_cons_of_mem h0 h1) c hc


theorem mem_of_mem_splitOnP (p : Char → Bool) (l : List Char) :
    ∀ x ∈ l.splitOnP p, ∀ c ∈ x, c ∈ l := by
  induction l with
  | nil =>
    intro x hx c hc
    rw [List.splitOnP_nil] at hx
    simp only [List.mem_singleton] at hx
    subst hx
    cases hc
  | cons a t ih =>
    intro x hx c hc
    rw [List.splitOnP_cons] at hx
    by_cases hpa : p a
    · rw [if_pos hpa] at hx
      rcases List.mem_cons.mp hx with h1 | h1
      · subst h1; cases hc
      · exact List.mem_cons_of_mem a (ih x h1 c hc)
    · rw [if_neg hpa] at hx
      rcases hsp : t.splitOnP p with _ | ⟨h0, tl⟩
      · exact absurd hsp (List.splitOnP_ne_nil p t)
      · rw [hsp, List.modifyHead_cons] at hx
        rcases List.mem_cons.mp hx with h1 | h1
        · subst h1
          rcases List.mem_cons.mp hc with hc1 | hc1
          · exact List.mem_cons.mpr (Or.inl hc1)
          · exact List.mem_cons_of_mem a
              (ih h0 (hsp ▸ List.mem_cons_self h0 tl) c hc1)
        · exact List.mem_cons_of_mem a
            (ih x (hsp ▸ List.mem_cons_of_mem h0 h1) c hc)

theorem splitOnP_joinLines (p : Char → Bool) (sep : Char) (hsep : p sep = true)
    (ls : List (List Char)) (hx : ∀ l ∈ ls, ∀ c ∈ l, p c = false) :
    (joinLines sep ls).splitOnP p = ls ++ [[]] := by
  induction ls with
  | nil => simp [joinLines]
  | cons l t ih =>
    have hl : ∀ c ∈ l, ¬p c := fun c hc => by
      simp [hx l (List.mem_cons_self l t) c hc]
    have : joinLines sep (l :: t) = l ++ sep :: joinLines sep t := rfl
    rw [this, List.splitOnP_first p l hl sep hsep (joinLines sep t)]
    rw [ih fun y hy c hc => hx y (List.mem_cons_of_mem l hy) c hc]
    rfl

theorem joinSep_concat_sep (sep : Char) (ls : List (List Char)) (h : ls ≠ []) :
    joinSep sep ls ++ [sep] = joinLines sep ls := by
  induction ls with
  | nil => exact absurd rfl h
  | cons l t ih =>
    cases t with
    | nil => rfl
    | cons y u =>
      have : joinSep sep (l :: y :: u) = l ++ sep :: joinSep sep (y :: u) := rfl
      rw [this]
      have h2 : joinLines sep (l :: y :: u) = l ++ sep :: joinLines sep (y :: u) := rfl
      rw [h2, List.append_assoc]
      simp only [List.cons_append]
      rw [ih (List.cons_ne_nil y u)]

theorem splitOnP_joinSep (p : Char → Bool) (sep : Char) (hsep : p sep = true)
    (ls : List (List Char)) (hls : ls ≠ [])
    (hx : ∀ l ∈ ls, ∀ c ∈ l, p c = false) :
    (joinSep sep ls).splitOnP p = ls := by
  induction ls with
  | nil => exact absurd rfl hls
  | cons l t ih =>
    cases t with
    | nil =>
      have hl : ∀ c ∈ l, ¬p c := fun c hc => by
        simp [hx l (List.mem_cons_self l []) c hc]
      simpa [joinSep] using List.splitOnP_eq_single p l hl
    | cons y u =>
      have hl : ∀ c ∈ l, ¬p c := fun c hc => by
        simp [hx l (List.mem_cons_self l (y :: u)) c hc]
      have : joinSep sep (l :: y :: u) = l ++ sep :: joinSep sep (y :: u) := rfl
      rw [this, List.splitOnP_first p l hl sep hsep (joinSep sep (y :: u))]
      rw [ih (List.cons_ne_nil y u)
        fun z hz c hc => hx z (List.mem_cons_of_mem l hz) c hc]

theorem splitWs_good (l : List Char) :
    ∀ x ∈ splitWs l, x ≠ [] ∧ ∀ c ∈ x, isWs c = false := by
  intro x hx
  have h2 := List.of_mem_filter hx
  have h1 := List.mem_of_mem_filter hx
  refine ⟨?_, splitOnP_all_not isWs l x h1⟩
  intro he
  subst he
  simp at h2

theorem splitWs_subset (l : List Char) :
    ∀ x ∈ splitWs l, ∀ c ∈ x, c ∈ l := fun x hx =>
  mem_of_mem_splitOnP isWs l x (List.mem_of_mem_filter hx)

theorem splitWs_joinSep_tab (items : List (List Char))
    (h : ∀ x ∈ items, x ≠ [] ∧ ∀ c ∈ x, isWs c = false) :
    splitWs (joinSep '\t' items) = items := by
  cases items with
  | nil => rfl
  | cons a t =>
    unfold splitWs
    rw [splitOnP_joinSep isWs '\t' rfl (a :: t) (List.cons_ne_nil a t)
      fun l hl c hc => (h l hl).2 c hc]
    rw [List.filter_eq_self.mpr]
    intro x hx
    have := (h x hx).1
    simpa [List.isEmpty_iff]

theorem hasSub_append_self (n : List Char) :
    ∀ pre : List Char, hasSub n (pre ++ n) = true := by
  intro pre
  induction pre with
  | nil =>
    cases n with
    | nil => rfl
    | cons c r =>
      have : (c :: r).isPrefixOf (c :: r) = true := by
        simp [List.isPrefixOf_iff_prefix]
      simp [hasSub, this]
  | cons a pre ih =>
    cases hn : n with
    | nil => simp [hasSub]
    | cons c r =>
      rw [← hn]
      have h2 : (a :: pre) ++ n = a :: (pre ++ n) := rfl
      have : hasSub n (a :: (pre ++ n)) =
          (n.isPrefixOf (a :: (pre ++ n)) || hasSub n (pre ++ n)) := by
        rw [hn]; rfl
      rw [h2, this, ih, Bool.or_true]

theorem getD_mem_or_eq {α : Type} (l : List α) (n : Nat) (d : α) :
    l.getD n d ∈ l ∨ l.getD n d = d := by
  induction l generalizing n with
  | nil => right; simp
  | cons a t ih =>
    cases n with
    | zero => left; simp
    | succ m =>
      rcases ih m with h | h
      · left
        rw [List.getD_cons_succ]
        exact List.mem_cons_of_mem a h
      · right
        rw [List.getD_cons_succ]
        exact h

theorem getD_set_self {α : Type} (l : List α) (n : Nat) (v d : α) (h : n < l.length) :
    (l.set n v).getD n d = v := by
  induction l generalizing n with
  | nil => exact absurd h (Nat.not_lt_zero n)
  | cons a t ih =>
    cases n with
    | zero => rfl
    | succ m =>
      have : (a :: t).set (m + 1) v = a :: t.set m v := rfl
      rw [this, List.getD_cons_succ]
      exact ih m (by simpa using Nat.lt_of_succ_lt_succ (by simpa using h))

theorem mem_joinSep (sep : Char) (ls : List (List Char)) :
    ∀ c ∈ joinSep sep ls, c = sep ∨ ∃ x ∈ ls, c ∈ x := by
  induction ls with
  | nil => intro c hc; cases hc
  | cons l t ih =>
    cases t with
    | nil =>
      intro c hc
      exact Or.inr ⟨l, List.mem_cons_self l [], hc⟩
    | cons y u =>
      intro c hc
      have : joinSep sep (l :: y :: u) = l ++ sep :: joinSep sep (y :: u) := rfl
      rw [this] at hc
      rcases List.mem_append.mp hc with h1 | h1
      · exact Or.inr ⟨l, List.mem_cons_self l (y :: u), h1⟩
      · rcases List.mem_cons.mp h1 with h2 | h2
        · exact Or.inl h2
        · rcases ih c h2 with h3 | ⟨x, hx, hcx⟩
          · exact Or.inl h3
          · exact Or.inr ⟨x, List.mem_cons_of_mem l hx, hcx⟩

/-- Items that re-split cleanly after being joined by tabs: nonempty,
free of whitespace, free of newlines. -/
def goodItem (x : List Char) : Prop :=
  x ≠ [] ∧ ∀ c ∈ x, isWs c = false ∧ c ≠ '\n'

namespace PrencryptWorker

theorem kTimeoutParam_good : ∀ c ∈ kTimeoutParam, isWs c = false ∧ c ≠ '\n' := by
  decide

theorem annotateStep_true (dev uuid : List Char) (line : List Char) :
    annotateStep dev uuid true line = (splitWs line, true) := by
  simp [annotateStep]

theorem annotateStep_noMatch (dev uuid : List Char) (b : Bool) (line : List Char)
    (hm : fstabMatch dev uuid (splitWs line) = false) :
    annotateStep dev uuid b line = (splitWs line, b) := by
  simp [annotateStep, hm]

theorem annotateStep_hasSub (dev uuid : List Char) (b : Bool) (line : List Char)
    (hs : hasSub kTimeoutParam ((splitWs line).getD 3 []) = true) :
    annotateStep dev uuid b line = (splitWs line, b) := by
  simp only [annotateStep]
  rw [hs]
  simp

theorem annotateStep_annotate (dev uuid : List Char) (line : List Char)
    (hm : fstabMatch dev uuid (splitWs line) = true)
    (hs : hasSub kTimeoutParam ((splitWs line).getD 3 []) = false) :
    annotateStep dev uuid false line =
      ((splitWs line).set 3 ((splitWs line).getD 3 [] ++ ',' :: kTimeoutParam),
        true) := by
  simp only [annotateStep]
  rw [hm, hs]
  simp

theorem annotateStep_fst (dev uuid : List Char) (b : Bool) (line : List Char) :
    (annotateStep dev uuid b line).1 = splitWs line ∨
    (annotateStep dev uuid b line).1 =
      (splitWs line).set 3 ((splitWs line).getD 3 [] ++ ',' :: kTimeoutParam) := by
  simp only [annotateStep]
  split
  · split
    · right; rfl
    · left; rfl
  · left; rfl

theorem annotateLines_cons (dev uuid line : List Char) (rest : List (List Char))
    (b : Bool) :
    annotateLines dev uuid (line :: rest) b =
      ((annotateStep dev uuid b line).1 ::
          (annotateLines dev uuid rest (annotateStep dev uuid b line).2).1,
        (annotateLines dev uuid rest (annotateStep dev uuid b line).2).2) := rfl

theorem annotateLines_flag_true (dev uuid : List Char) (lines : List (List Char)) :
    annotateLines dev uuid lines true = (lines.map splitWs, true) := by
  induction lines with
  | nil => rfl
  | cons line rest ih =>
    rw [annotateLines_cons, annotateStep_true]
    simp [ih]

theorem annotateLines_no_trigger (dev uuid : List Char) (lines : List (List Char)) :
    ∀ b : Bool,
    (∀ line ∈ lines, fstabMatch dev uuid (splitWs line) = true →
      hasSub kTimeoutParam ((splitWs line).getD 3 []) = true) →
    annotateLines dev uuid lines b = (lines.map splitWs, b) := by
  induction lines with
  | nil => intro b _; rfl
  | cons line rest ih =>
    intro b h
    have hstep : annotateStep dev uuid b line = (splitWs line, b) := by
      by_cases hm : fstabMatch dev uuid (splitWs line) = true
      · exact annotateStep_hasSub dev uuid b line
          (h line (List.mem_cons_self line rest) hm)
      · exact annotateStep_noMatch dev uuid b line (by simpa using hm)
    rw [annotateLines_cons, hstep]
    simp [ih b fun l hl => h l (List.mem_cons_of_mem line hl)]

theorem annotateLines_post (dev uuid : List Char) (lines : List (List Char)) :
    List.countP (fun line => fstabMatch dev uuid (splitWs line)) lines ≤ 1 →
    ∀ its ∈ (annotateLines dev uuid lines false).1,
      fstabMatch dev uuid its = true →
      hasSub kTimeoutParam (its.getD 3 []) = true := by
  induction lines with
  | nil => intro _ its hits; cases hits
  | cons line rest ih =>
    intro hcount its hits hmits
    by_cases hm : fstabMatch dev uuid (splitWs line) = true
    · have hrest0 :
          List.countP (fun line => fstabMatch dev uuid (splitWs line)) rest = 0 := by
        rw [List.countP_cons] at hcount
        simp only [hm, if_pos] at hcount
        omega
      have hrestF : ∀ l ∈ rest, ¬(fstabMatch dev uuid (splitWs l) = true) := by
        intro l hl
        have := List.countP_eq_zero.mp hrest0 l hl
        simpa using this
      by_cases hs : hasSub kTimeoutParam ((splitWs line).getD 3 []) = true
      · rw [annotateLines_cons, annotateStep_hasSub dev uuid false line hs] at hits
        simp only at hits
        rcases List.mem_cons.mp hits with h1 | h1
        · subst h1; exact hs
        · rw [annotateLines_no_trigger dev uuid rest false
            (fun l hl hml => absurd hml (hrestF l hl))] at h1
          rcases List.mem_map.mp h1 with ⟨l, hl, hsp⟩
          exact absurd (hsp ▸ hmits) (hrestF l hl)
      · have hs2 : hasSub kTimeoutParam ((splitWs line).getD 3 []) = false := by
          simpa using hs
        have hlen : (splitWs line).length = 6 := by
          simp only [fstabMatch, Bool.and_eq_true, beq_iff_eq] at hm
          exact hm.1
        rw [annotateLines_cons, annotateStep_annotate dev uuid line hm hs2] at hits
        simp only at hits
        rcases List.mem_cons.mp hits with h1 | h1
        · subst h1
          rw [getD_set_self _ 3 _ _ (by omega)]
          have hshape : (splitWs line).getD 3 [] ++ ',' :: kTimeoutParam =
              ((splitWs line).getD 3 [] ++ [',']) ++ kTimeoutParam := by
            simp
          rw [hshape]
          exact hasSub_append_self kTimeoutParam _
        · rw [annotateLines_flag_true dev uuid rest] at h1
          rcases List.mem_map.mp h1 with ⟨l, hl, hsp⟩
          exact absurd (hsp ▸ hmits) (hrestF l hl)
    · have hm2 : fstabMatch dev uuid (splitWs line) = false := by
        simpa using hm
      have hcount2 :
          List.countP (fun line => fstabMatch dev uuid (splitWs line)) rest ≤ 1 := by
        rw [List.countP_cons] at hcount
        omega
      rw [annotateLines_cons, annotateStep_noMatch dev uuid false line hm2] at hits
      simp only at hits
      rcases List.mem_cons.mp hits with h1 | h1
      · subst h1
        rw [hm2] at hmits
        cases hmits
      · exact ih hcount2 its h1 hmits

theorem annotateLines_good (dev uuid : List Char) (lines : List (List Char)) :
    ∀ b : Bool,
    (∀ line ∈ lines, '\n' ∉ line) →
    ∀ its ∈ (annotateLines dev uuid lines b).1, ∀ x ∈ its, goodItem x := by
  induction lines with
  | nil => intro b _ its hits; cases hits
  | cons line rest ih =>
    intro b hnl its hits x hx
    have hlineGood : ∀ x ∈ splitWs line, goodItem x := by
      intro x hx
      obtain ⟨hne, hws⟩ := splitWs_good line x hx
      refine ⟨hne, fun c hc => ⟨hws c hc, ?_⟩⟩
      intro he
      exact hnl line (List.mem_cons_self line rest)
        (he ▸ splitWs_subset line x hx c hc)
    rw [annotateLines_cons] at hits
    rcases List.mem_cons.mp hits with h1 | h1
    · rcases annotateStep_fst dev uuid b line with h2 | h2
      · rw [h2] at h1
        subst h1
        exact hlineGood x hx
      · rw [h2] at h1
        subst h1
        rcases List.mem_or_eq_of_mem_set hx with h3 | h3
        · exact hlineGood x h3
        · subst h3
          constructor
          · simp
          · intro c hc
            rcases List.mem_append.mp hc with h4 | h4
            · rcases getD_mem_or_eq (splitWs line) 3 ([] : List Char) with h5 | h5
              · exact (hlineGood _ h5).2 c h4
              · rw [h5] at h4; cases h4
            · rcases List.mem_cons.mp h4 with h5 | h5
              · subst h5; exact ⟨by decide, by decide⟩
              · exact kTimeoutParam_good c h5
    · exact ih _ (fun l hl => hnl l (List.mem_cons_of_mem line hl)) its h1 x hx

end PrencryptWorker

theorem mapper_ne (d : String) : "/dev/mapper/dm-" ++ d.drop 5 ≠ d := by
  intro h
  have hlen := congrArg String.length h
  rw [String.length_append] at hlen
  have hdrop : (d.drop 5).length = d.length - 5 := by
    show (d.drop 5).data.length = d.length - 5
    rw [String.data_drop]
    exact List.length_drop 5 d.data
  have h15 : ("/dev/mapper/dm-" : String).length = 15 := rfl
  rw [h15, hdrop] at hlen
  omega

open disk_encrypt_funcs block_device_utils in
/-- Helper: with valid parameters, any probe outcome other than
positively not-encrypted makes bcInitHeaderFile refuse with
DeviceEncrypted and an empty event trace. -/
theorem bcInitHeaderFile_refuses_encrypted (env : InitHeaderEnv)
    (hv : env.paramsValid = true)
    (henc : bcDevEncryptVersion env.blk ≠ .kNotEncrypted) :
    bcInitHeaderFile env = (-kErrorDeviceEncrypted, false, []) := by
  unfold bcInitHeaderFile
  rw [hv]
  simp [henc]

open disk_encrypt_funcs block_device_utils in
/-- C3: for every set of valid encryption parameters whose target device
is already encrypted (the probe reports anything other than positively
not-encrypted), the prepare-encrypt entry point returns the
DeviceEncrypted error with no header path assigned and an empty event
trace: no scratch file is created, no filesystem shrink happens and no
format is issued. -/
theorem C3_prepare_encrypt_on_encrypted_device (env : InitHeaderEnv)
    (hv : env.paramsValid = true)
    (henc : bcDevEncryptVersion env.blk ≠ .kNotEncrypted) :
    bcInitHeaderFile env = (-kErrorDeviceEncrypted, false, []) :=
  bcInitHeaderFile_refuses_encrypted env hv henc

open disk_encrypt_funcs block_device_utils in
/-- C3 witness: an already LUKS2-encrypted device with valid parameters
is refused with DeviceEncrypted and no side effects. -/
theorem C3_prepare_encrypt_on_encrypted_device_witness :
    bcInitHeaderFile
        ⟨true, ⟨true, "crypto_LUKS", "2", true, false⟩,
          ⟨"/dev/sdb1", ⟨true, true⟩, 0, 0, 0, 0, "", 0, 0, 0, 0⟩⟩ =
      (-kErrorDeviceEncrypted, false, []) :=
  C3_prepare_encrypt_on_encrypted_device _ rfl (by decide)

open disk_encrypt_funcs block_device_utils in
/-- C10: a device whose encryption state cannot be determined is never
reported as not-encrypted: a failed handler creation yields
kVersionUnknown and an unrecognized LUKS version string yields
kVersionLUKSUnknown; prepare-encrypt consequently refuses every device
not positively probed as not-encrypted with the DeviceEncrypted error,
and a format event can only ever be emitted when the probe returned
exactly kNotEncrypted. -/
theorem C10_only_not_encrypted_is_formatted :
    (∀ benv : BlkEnv, benv.createOk = false →
      bcDevEncryptVersion benv = .kVersionUnknown)
    ∧ (∀ benv : BlkEnv, benv.createOk = true → benv.idType = "crypto_LUKS" →
      benv.idVersion ≠ "1" → benv.idVersion ≠ "2" →
      bcDevEncryptVersion benv = .kVersionLUKSUnknown)
    ∧ (∀ env : InitHeaderEnv, env.paramsValid = true →
      bcDevEncryptVersion env.blk ≠ .kNotEncrypted →
      (bcInitHeaderFile env).1 = -kErrorDeviceEncrypted)
    ∧ (∀ env : InitHeaderEnv, Event.formatLuks ∈ (bcInitHeaderFile env).2.2 →
      bcDevEncryptVersion env.blk = .kNotEncrypted) := by
  refine ⟨?_, ?_, ?_, ?_⟩
  · intro benv h
    unfold bcDevEncryptVersion
    rw [h]
    rfl
  · intro benv hc ht h1 h2
    unfold bcDevEncryptVersion
    rw [hc, ht]
    simp [h1, h2]
  · intro env hv henc
    rw [bcInitHeaderFile_refuses_encrypted env hv henc]
  · intro env hmem
    by_contra hne
    rw [bcInitHeaderFile_refuses_encrypted env ?_ hne] at hmem
    · cases hmem
    · by_contra hv
      unfold bcInitHeaderFile at hmem
      have : env.paramsValid = false := by
        cases h : env.paramsValid
        · rfl
        · exact absurd h hv
      rw [this] at hmem
      cases hmem

open disk_encrypt_funcs block_device_utils in
/-- C10 witness: a device with no obtainable handler is reported
kVersionUnknown, an unrecognized LUKS version is reported
kVersionLUKSUnknown, prepare-encrypt refuses the undeterminable device
with DeviceEncrypted, and a run that does emit a format had probed the
device as exactly not-encrypted. -/
theorem C10_only_not_encrypted_is_formatted_witness :
    bcDevEncryptVersion ⟨false, "", "", false, false⟩ = .kVersionUnknown
    ∧ bcDevEncryptVersion ⟨true, "crypto_LUKS", "3", false, false⟩ =
        .kVersionLUKSUnknown
    ∧ (bcInitHeaderFile
        ⟨true, ⟨false, "", "", false, false⟩,
          ⟨"/dev/sdb1", ⟨true, true⟩, 0, 0, 0, 0, "", 0, 0, 0, 0⟩⟩).1 =
        -kErrorDeviceEncrypted
    ∧ bcDevEncryptVersion
        (⟨true, ⟨true, "ext4", "", false, false⟩,
          ⟨"/dev/sdb1", ⟨true, true⟩, 0, 0, 0, 0, "", 0, 0, 0, 0⟩⟩ :
            InitHeaderEnv).blk = .kNotEncrypted :=
  ⟨C10_only_not_encrypted_is_formatted.1 _ rfl,
    C10_only_not_encrypted_is_formatted.2.1 _ rfl rfl (by decide) (by decide),
    C10_only_not_encrypted_is_formatted.2.2.1 _ rfl (by decide),
    C10_only_not_encrypted_is_formatted.2.2.2 _ (by decide)⟩

open disk_encrypt_funcs in
/-- C6 counterexample: a header-preparation run in which the exclusive
create of the scratch file succeeds but the 32 MiB preallocation fails
terminates with an error after the scratch file has been created, yet
the trace contains no scratch removal and no filesystem expansion: the
early return on the unassigned header path happens before the rollback
guard exists, so the created scratch file is left behind. -/
theorem C6_counterexample :
    bcDoSetupHeader ⟨"/dev/sdb1", ⟨true, false⟩, 0, 0, 0, 0, "", 0, 0, 0, 0⟩ =
      (-kErrorCreateHeader, false, [.scratchCreate])
    ∧ (-kErrorCreateHeader : Int) < 0
    ∧ Event.scratchCreate ∈
        (bcDoSetupHeader
          ⟨"/dev/sdb1", ⟨true, false⟩, 0, 0, 0, 0, "", 0, 0, 0, 0⟩).2.2
    ∧ Event.scratchRemove ∉
        (bcDoSetupHeader
          ⟨"/dev/sdb1", ⟨true, false⟩, 0, 0, 0, 0, "", 0, 0, 0, 0⟩).2.2
    ∧ Event.fsExpand "/dev/sdb1" ∉
        (bcDoSetupHeader
          ⟨"/dev/sdb1", ⟨true, false⟩, 0, 0, 0, 0, "", 0, 0, 0, 0⟩).2.2 := by
  decide

set_option maxHeartbeats 1000000 in
open disk_encrypt_funcs in
/-- C6 amended: once the scratch file has been created and successfully
preallocated, every failing header-preparation run removes the scratch
file and re-expands the filesystem of the raw device before returning,
while a successful run retains both (its only expansion targets the
transiently activated mapper volume, never the raw device); a failure
of the preallocation step itself, however, leaves the created scratch
file in place, which is what the counterexample exhibits. -/
theorem C6_rollback_after_preallocation (env : SetupEnv)
    (ho : env.prepare.openOk = true) (hf : env.prepare.fallocOk = true) :
    ((bcDoSetupHeader env).1 ≠ kSuccess →
      Event.scratchRemove ∈ (bcDoSetupHeader env).2.2 ∧
      Event.fsExpand env.device ∈ (bcDoSetupHeader env).2.2)
    ∧ ((bcDoSetupHeader env).1 = kSuccess →
      Event.scratchRemove ∉ (bcDoSetupHeader env).2.2 ∧
      Event.fsExpand env.device ∉ (bcDoSetupHeader env).2.2)
    ∧ Event.scratchCreate ∈ (bcDoSetupHeader env).2.2
    ∧ Event.fsShrink env.device ∈ (bcDoSetupHeader env).2.2 := by
  obtain ⟨device, ⟨po, pf⟩, ci, so, fo, ak, rk, ar, ri, ac, de⟩ := env
  simp only at ho hf
  subst ho hf
  have hmne2 : ¬(device = "/dev/mapper/dm-" ++ device.drop 5) :=
    fun h => mapper_ne device h.symm
  unfold bcDoSetupHeader bcPrepareHeaderFile setupRollback
  by_cases h1 : ci < 0
  · norm_num [h1, kSuccess, kErrorInitCrypt]
  · by_cases h2 : so < 0
    · norm_num [h1, h2, kSuccess, kErrorSetOffset]
    · by_cases h3 : fo < 0
      · norm_num [h1, h2, h3, kSuccess, kErrorFormatLuks]
      · by_cases h4 : ak < 0
        · norm_num [h1, h2, h3, h4, kSuccess, kErrorAddKeyslot]
        · by_cases hrk : rk = ""
          · by_cases h5 : ri < 0
            · norm_num [h1, h2, h3, h4, hrk, h5, kSuccess, kErrorInitReencrypt]
            · by_cases h6 : ac < 0
              · norm_num [h1, h2, h3, h4, hrk, h5, h6, kSuccess, kErrorActive]
              · by_cases h7 : de < 0
                · norm_num [h1, h2, h3, h4, hrk, h5, h6, h7, kSuccess,
                    kErrorDeactive, hmne2]
                · norm_num [h1, h2, h3, h4, hrk, h5, h6, h7, kSuccess, hmne2]
                  simp [hmne2]
          · by_cases h5 : ri < 0
            · norm_num [h1, h2, h3, h4, hrk, h5, kSuccess, kErrorInitReencrypt]
            · by_cases h6 : ac < 0
              · norm_num [h1, h2, h3, h4, hrk, h5, h6, kSuccess, kErrorActive]
              · by_cases h7 : de < 0
                · norm_num [h1, h2, h3, h4, hrk, h5, h6, h7, kSuccess,
                    kErrorDeactive, hmne2]
                · norm_num [h1, h2, h3, h4, hrk, h5, h6, h7, kSuccess, hmne2]
                  simp [hmne2]


open disk_encrypt_funcs in
/-- C6 witness: a concrete run failing at crypt_init after successful
scratch preparation, obtained by applying the amended theorem. -/
theorem C6_rollback_after_preallocation_witness :
    ((bcDoSetupHeader ⟨"/dev/sdb1", ⟨true, true⟩, -1, 0, 0, 0, "", 0, 0, 0, 0⟩).1 ≠
            kSuccess →
        Event.scratchRemove ∈
            (bcDoSetupHeader
              ⟨"/dev/sdb1", ⟨true, true⟩, -1, 0, 0, 0, "", 0, 0, 0, 0⟩).2.2 ∧
          Event.fsExpand "/dev/sdb1" ∈
            (bcDoSetupHeader
              ⟨"/dev/sdb1", ⟨true, true⟩, -1, 0, 0, 0, "", 0, 0, 0, 0⟩).2.2)
      ∧ ((bcDoSetupHeader ⟨"/dev/sdb1", ⟨true, true⟩, -1, 0, 0, 0, "", 0, 0, 0, 0⟩).1 =
            kSuccess →
        Event.scratchRemove ∉
            (bcDoSetupHeader
              ⟨"/dev/sdb1", ⟨true, true⟩, -1, 0, 0, 0, "", 0, 0, 0, 0⟩).2.2 ∧
          Event.fsExpand "/dev/sdb1" ∉
            (bcDoSetupHeader
              ⟨"/dev/sdb1", ⟨true, true⟩, -1, 0, 0, 0, "", 0, 0, 0, 0⟩).2.2)
      ∧ Event.scratchCreate ∈
          (bcDoSetupHeader
            ⟨"/dev/sdb1", ⟨true, true⟩, -1, 0, 0, 0, "", 0, 0, 0, 0⟩).2.2
      ∧ Event.fsShrink "/dev/sdb1" ∈
          (bcDoSetupHeader
            ⟨"/dev/sdb1", ⟨true, true⟩, -1, 0, 0, 0, "", 0, 0, 0, 0⟩).2.2 :=
  C6_rollback_after_preallocation
    ⟨"/dev/sdb1", ⟨true, true⟩, -1, 0, 0, 0, "", 0, 0, 0, 0⟩ rfl rfl

open disk_encrypt_funcs block_device_utils in
/-- Helper: the status query only performs read-only context calls. -/
theorem bcDevEncryptStatus_no_mutation (env : CdevEnv) :
    (bcDevEncryptStatus env).2.2.filter Event.isCryptoMutation = [] := by
  unfold bcDevEncryptStatus
  split_ifs <;> rfl

open disk_encrypt_funcs block_device_utils ReencryptWorkerV2 in
/-- Helper: the resume worker finds nothing to do whenever the derived
live status is anything other than OnlineReencryptUnfinished. -/
theorem hasUnfinished_false_of_status (env : V2Env)
    (hst : (bcDevEncryptStatus env.statusEnv).2.1 ≠
      some EncryptStatus.kStatusOnlineUnfinished) :
    (hasUnfinishedOnlineEncryption env).1 = false := by
  unfold hasUnfinishedOnlineEncryption
  by_cases hd : env.config.devicePath = ""
  · rw [if_pos hd]
  · rw [if_neg hd]
    rcases hq : bcDevEncryptStatus env.statusEnv with ⟨code, st, ev⟩
    rw [hq] at hst
    simp only at hst
    simp only
    by_cases hc : code ≠ kSuccess
    · rw [if_pos hc]
    · rw [if_neg hc]

open disk_encrypt_funcs block_device_utils ReencryptWorkerV2 in
/-- Helper: the events of the status check inside the resume worker are
the events of the underlying status query, or none at all. -/
theorem hasUnfinished_events (env : V2Env) :
    (hasUnfinishedOnlineEncryption env).2 = [] ∨
      (hasUnfinishedOnlineEncryption env).2 =
        (bcDevEncryptStatus env.statusEnv).2.2 := by
  unfold hasUnfinishedOnlineEncryption
  by_cases hd : env.config.devicePath = ""
  · left
    rw [if_pos hd]
  · right
    rw [if_neg hd]
    rcases hq : bcDevEncryptStatus env.statusEnv with ⟨code, st, ev⟩
    simp only
    by_cases hc : code ≠ kSuccess
    · rw [if_pos hc]
    · rw [if_neg hc]
      cases st with
      | none => rfl
      | some s => cases s <;> rfl

open disk_encrypt_funcs block_device_utils ReencryptWorkerV2 in
/-- C2: bcResumeReencrypt reloads the persistent requirement flags and,
when the online-reencrypt bit is absent, stops with the WrongFlags
error having performed no crypto mutation; and the boot-time resume
worker performs zero crypto mutations whenever the live status derived
from the flags is anything other than OnlineReencryptUnfinished,
including every failure to determine it. -/
theorem C2_resume_requires_online_flag :
    (∀ (g : Globals) (device : String) (expandFs : Bool) (env : ResumeEnv),
      0 ≤ env.cdev.init → 0 ≤ env.cdev.load → 0 ≤ env.cdev.flagsGet →
      env.cdev.flags.online = false →
      (bcResumeReencrypt g device expandFs env).code = -kErrorWrongFlags ∧
        (bcResumeReencrypt g device expandFs env).events.filter
          Event.isCryptoMutation = [])
    ∧ (∀ (g : Globals) (env : V2Env),
      (bcDevEncryptStatus env.statusEnv).2.1 ≠
        some EncryptStatus.kStatusOnlineUnfinished →
      (ReencryptWorkerV2.run g env).events.filter Event.isCryptoMutation = []) := by
  constructor
  · intro g device expandFs env hinit hload hflags honline
    unfold bcResumeReencrypt
    rw [if_neg (by omega), if_neg (by omega), if_neg (by omega), honline]
    exact ⟨rfl, rfl⟩
  · intro g env hst
    have hsnd := hasUnfinished_events env
    rcases hh : hasUnfinishedOnlineEncryption env with ⟨b, ev⟩
    have hb : b = false := by
      have := hasUnfinished_false_of_status env hst
      rw [hh] at this
      exact this
    subst hb
    rw [hh] at hsnd
    have hev : (ReencryptWorkerV2.run g env).events = ev := by
      unfold ReencryptWorkerV2.run
      rw [hh]
      rfl
    rw [hev]
    rcases hsnd with h | h
    · simp only at h
      rw [h]
      rfl
    · simp only at h
      rw [h]
      exact bcDevEncryptStatus_no_mutation env.statusEnv

open disk_encrypt_funcs block_device_utils ReencryptWorkerV2 in
/-- C2 witness: a device whose header reports only the offline bit is
refused with WrongFlags by the resume entry point with no crypto
mutation, and a resume worker seeing OfflineReencryptUnfinished
performs zero crypto mutations. -/
theorem C2_resume_requires_online_flag_witness :
    ((bcResumeReencrypt ⟨"", ""⟩ "/dev/sdb1" false
        ⟨⟨0, 0, 0, ⟨true, false, false⟩⟩, 0, [], 0, 0, 0⟩).code =
        -kErrorWrongFlags ∧
      (bcResumeReencrypt ⟨"", ""⟩ "/dev/sdb1" false
        ⟨⟨0, 0, 0, ⟨true, false, false⟩⟩, 0, [], 0, 0, 0⟩).events.filter
          Event.isCryptoMutation = [])
    ∧ (ReencryptWorkerV2.run ⟨"", ""⟩
        ⟨⟨"", "", "", "", "/dev/sdb1", "", "", "", ""⟩,
          ⟨"/dev/sdb1", "p", "", "", ""⟩,
          ⟨0, 0, 0, ⟨true, false, false⟩⟩,
          ⟨⟨0, 0, 0, ⟨false, true, false⟩⟩, 0, [], 0, 0, 0⟩,
          ⟨0, 0, 0⟩, ⟨0, 0, 0⟩, "", ⟨0, 0, 0⟩, ⟨0, 0, 0⟩, ⟨0, 0, 0⟩,
          ⟨[], true, true⟩⟩).events.filter Event.isCryptoMutation = [] :=
  ⟨C2_resume_requires_online_flag.1 ⟨"", ""⟩ "/dev/sdb1" false
      ⟨⟨0, 0, 0, ⟨true, false, false⟩⟩, 0, [], 0, 0, 0⟩
      (by decide) (by decide) (by decide) rfl,
    C2_resume_requires_online_flag.2 ⟨"", ""⟩
      ⟨⟨"", "", "", "", "/dev/sdb1", "", "", "", ""⟩,
        ⟨"/dev/sdb1", "p", "", "", ""⟩,
        ⟨0, 0, 0, ⟨true, false, false⟩⟩,
        ⟨⟨0, 0, 0, ⟨false, true, false⟩⟩, 0, [], 0, 0, 0⟩,
        ⟨0, 0, 0⟩, ⟨0, 0, 0⟩, "", ⟨0, 0, 0⟩, ⟨0, 0, 0⟩, ⟨0, 0, 0⟩,
        ⟨[], true, true⟩⟩ (by decide)⟩

open disk_encrypt_funcs ReencryptWorkerV2 in
/-- C1 counterexample: a boot-time resume run in which the resume
reencryption succeeds but the subsequent passphrase installation fails
still deletes the persisted job-config file, and finishes with the
failed step error code recorded: the claim that the file is deleted
only after all follow-up steps succeeded, and never on a step failure,
is false on the code. -/
theorem C1_counterexample :
    (ReencryptWorkerV2.run ⟨"", ""⟩
        ⟨⟨"", "UUID=x", "", "data", "/dev/sdb1", "", "", "", ""⟩,
          ⟨"/dev/sdb1", "p", "", "", ""⟩,
          ⟨0, 0, 0, ⟨false, true, false⟩⟩,
          ⟨⟨0, 0, 0, ⟨false, true, false⟩⟩, 0, [], 0, 0, 0⟩,
          ⟨0, 0, -1⟩, ⟨0, 0, 0⟩, "", ⟨0, 0, 0⟩, ⟨0, 0, 0⟩, ⟨0, 0, 0⟩,
          ⟨[], true, true⟩⟩).removedConfig = true
    ∧ (ReencryptWorkerV2.run ⟨"", ""⟩
        ⟨⟨"", "UUID=x", "", "data", "/dev/sdb1", "", "", "", ""⟩,
          ⟨"/dev/sdb1", "p", "", "", ""⟩,
          ⟨0, 0, 0, ⟨false, true, false⟩⟩,
          ⟨⟨0, 0, 0, ⟨false, true, false⟩⟩, 0, [], 0, 0, 0⟩,
          ⟨0, 0, -1⟩, ⟨0, 0, 0⟩, "", ⟨0, 0, 0⟩, ⟨0, 0, 0⟩, ⟨0, 0, 0⟩,
          ⟨[], true, true⟩⟩).exitCode = -kErrorChangePassphraseFailed
    ∧ -kErrorChangePassphraseFailed ≠ kSuccess := by
  decide

open disk_encrypt_funcs ReencryptWorkerV2 in
/-- C1 amended: once the resume worker has found an unfinished online
encryption (and its parameter wait has completed), the job-config file
is deleted exactly when the resume reencryption call itself succeeds:
a resume failure stops the worker with that error and leaves the file;
but when the resume succeeds the follow-up steps (passphrase, recovery
key, label, crypttab) are merely attempted, their failures only setting
the exit code, and the deletion is the final action regardless. -/
theorem C1_config_removed_iff_resume_success (g : Globals) (env : V2Env)
    (hu : (hasUnfinishedOnlineEncryption env).1 = true) :
    ((ReencryptWorkerV2.run g env).removedConfig = true ↔
      (bcResumeReencrypt g env.config.devicePath false env.resumeEnv).code =
        kSuccess)
    ∧ ((bcResumeReencrypt g env.config.devicePath false env.resumeEnv).code ≠
        kSuccess →
      (ReencryptWorkerV2.run g env).exitCode =
          (bcResumeReencrypt g env.config.devicePath false env.resumeEnv).code ∧
        (ReencryptWorkerV2.run g env).removedConfig = false)
    ∧ ((ReencryptWorkerV2.run g env).removedConfig = true →
      (ReencryptWorkerV2.run g env).events.getLast? = some Event.configRemove) := by
  rcases hh : hasUnfinishedOnlineEncryption env with ⟨b, ev⟩
  rw [hh] at hu
  simp only at hu
  subst hu
  have hrun : ReencryptWorkerV2.run g env =
      (let r := bcResumeReencrypt g env.config.devicePath false env.resumeEnv
       if r.code = kSuccess then
        let s1 := setPassphrase env
        let s2 := setRecoveryKey env
        let ev3 := (bcSetLabel env.labelEnv).2
        let ev4 := updateCrypttabV2 env.params.tpmToken env.params.backingDevUUID
          env.crypttab
        let exit : Int :=
          match s2.1, s1.1 with
          | some v, _ => v
          | none, some v => v
          | none, none => kSuccess
        ⟨exit, some (env.config.devicePath, r.code), true,
          ev ++ r.events ++ s1.2 ++ s2.2 ++ ev3 ++ ev4 ++ [.configRemove]⟩
       else ⟨r.code, some (env.config.devicePath, r.code), false,
        ev ++ r.events⟩) := by
    unfold ReencryptWorkerV2.run
    rw [hh]
    rfl
  by_cases hres :
      (bcResumeReencrypt g env.config.devicePath false env.resumeEnv).code =
        kSuccess
  · rw [hrun]
    simp only [hres, if_pos]
    refine ⟨by simp, fun hn => absurd rfl hn, fun _ => List.getLast?_concat _⟩
  · rw [hrun]
    simp only [hres, if_neg]
    exact ⟨by simp [hres], fun _ => ⟨rfl, rfl⟩, by simp⟩

open disk_encrypt_funcs ReencryptWorkerV2 in
/-- C1 witness: a fully successful resume run deletes the config as its
final action, obtained by applying the amended theorem. -/
theorem C1_config_removed_iff_resume_success_witness :
    ((ReencryptWorkerV2.run ⟨"", ""⟩
        ⟨⟨"", "UUID=x", "", "data", "/dev/sdb1", "", "", "", ""⟩,
          ⟨"/dev/sdb1", "p", "", "", ""⟩,
          ⟨0, 0, 0, ⟨false, true, false⟩⟩,
          ⟨⟨0, 0, 0, ⟨false, true, false⟩⟩, 0, [], 0, 0, 0⟩,
          ⟨0, 0, 0⟩, ⟨0, 0, 0⟩, "", ⟨0, 0, 0⟩, ⟨0, 0, 0⟩, ⟨0, 0, 0⟩,
          ⟨[], true, true⟩⟩).removedConfig = true ↔
      (bcResumeReencrypt ⟨"", ""⟩ "/dev/sdb1" false
        ⟨⟨0, 0, 0, ⟨false, true, false⟩⟩, 0, [], 0, 0, 0⟩).code = kSuccess) ∧
    ((bcResumeReencrypt ⟨"", ""⟩ "/dev/sdb1" false
        ⟨⟨0, 0, 0, ⟨false, true, false⟩⟩, 0, [], 0, 0, 0⟩).code ≠ kSuccess →
      (ReencryptWorkerV2.run ⟨"", ""⟩
        ⟨⟨"", "UUID=x", "", "data", "/dev/sdb1", "", "", "", ""⟩,
          ⟨"/dev/sdb1", "p", "", "", ""⟩,
          ⟨0, 0, 0, ⟨false, true, false⟩⟩,
          ⟨⟨0, 0, 0, ⟨false, true, false⟩⟩, 0, [], 0, 0, 0⟩,
          ⟨0, 0, 0⟩, ⟨0, 0, 0⟩, "", ⟨0, 0, 0⟩, ⟨0, 0, 0⟩, ⟨0, 0, 0⟩,
          ⟨[], true, true⟩⟩).exitCode =
          (bcResumeReencrypt ⟨"", ""⟩ "/dev/sdb1" false
            ⟨⟨0, 0, 0, ⟨false, true, false⟩⟩, 0, [], 0, 0, 0⟩).code ∧
        (ReencryptWorkerV2.run ⟨"", ""⟩
          ⟨⟨"", "UUID=x", "", "data", "/dev/sdb1", "", "", "", ""⟩,
            ⟨"/dev/sdb1", "p", "", "", ""⟩,
            ⟨0, 0, 0, ⟨false, true, false⟩⟩,
            ⟨⟨0, 0, 0, ⟨false, true, false⟩⟩, 0, [], 0, 0, 0⟩,
            ⟨0, 0, 0⟩, ⟨0, 0, 0⟩, "", ⟨0, 0, 0⟩, ⟨0, 0, 0⟩, ⟨0, 0, 0⟩,
            ⟨[], true, true⟩⟩).removedConfig = false) ∧
    ((ReencryptWorkerV2.run ⟨"", ""⟩
        ⟨⟨"", "UUID=x", "", "data", "/dev/sdb1", "", "", "", ""⟩,
          ⟨"/dev/sdb1", "p", "", "", ""⟩,
          ⟨0, 0, 0, ⟨false, true, false⟩⟩,
          ⟨⟨0, 0, 0, ⟨false, true, false⟩⟩, 0, [], 0, 0, 0⟩,
          ⟨0, 0, 0⟩, ⟨0, 0, 0⟩, "", ⟨0, 0, 0⟩, ⟨0, 0, 0⟩, ⟨0, 0, 0⟩,
          ⟨[], true, true⟩⟩).removedConfig = true →
      (ReencryptWorkerV2.run ⟨"", ""⟩
        ⟨⟨"", "UUID=x", "", "data", "/dev/sdb1", "", "", "", ""⟩,
          ⟨"/dev/sdb1", "p", "", "", ""⟩,
          ⟨0, 0, 0, ⟨false, true, false⟩⟩,
          ⟨⟨0, 0, 0, ⟨false, true, false⟩⟩, 0, [], 0, 0, 0⟩,
          ⟨0, 0, 0⟩, ⟨0, 0, 0⟩, "", ⟨0, 0, 0⟩, ⟨0, 0, 0⟩, ⟨0, 0, 0⟩,
          ⟨[], true, true⟩⟩).events.getLast? = some Event.configRemove) :=
  C1_config_removed_iff_resume_success ⟨"", ""⟩
    ⟨⟨"", "UUID=x", "", "data", "/dev/sdb1", "", "", "", ""⟩,
      ⟨"/dev/sdb1", "p", "", "", ""⟩,
      ⟨0, 0, 0, ⟨false, true, false⟩⟩,
      ⟨⟨0, 0, 0, ⟨false, true, false⟩⟩, 0, [], 0, 0, 0⟩,
      ⟨0, 0, 0⟩, ⟨0, 0, 0⟩, "", ⟨0, 0, 0⟩, ⟨0, 0, 0⟩, ⟨0, 0, 0⟩,
      ⟨[], true, true⟩⟩ (by decide)

/-- C4: for every change-passphrase request with a bound trust-module
token, when the keyslot change succeeds (the supplied old credential
unlocks the device) but the token write fails, the worker rolls the
keyslot change back, so the device is again unlockable by the original
old credential, and the final result code is exactly the token-write
failure code. -/
theorem C4_token_failure_restores_old_passphrase
    (env : ChgPassWorker.ChgPassEnv) (creds : List String)
    (htok : env.token ≠ "") (hold : env.oldPass ∈ creds)
    (hfail : env.tokenWrite ≠ 0) :
    (ChgPassWorker.run env creds).1 = env.tokenWrite ∧
      env.oldPass ∈ (ChgPassWorker.run env creds).2 := by
  unfold ChgPassWorker.run
  cases hrec : env.useRecKey with
  | true =>
    simp only [hrec, if_true]
    rw [show ChgPassWorker.keyslotAddByPassphrase creds env.oldPass env.newPass =
        (kSuccess, env.newPass :: creds) from by
      unfold ChgPassWorker.keyslotAddByPassphrase
      rw [if_pos hold]]
    rw [if_pos ⟨htok, rfl⟩, if_pos hfail]
    rw [show ChgPassWorker.keyslotChangeByPassphrase
        ((kSuccess, env.newPass :: creds).2) env.newPass env.oldPass =
        (kSuccess, env.oldPass :: creds) from by
      unfold ChgPassWorker.keyslotChangeByPassphrase
      rw [if_pos (List.mem_cons_self _ _)]
      simp [List.erase_cons_head]]
    exact ⟨rfl, List.mem_cons_self _ _⟩
  | false =>
    simp only [Bool.false_eq_true, if_false]
    rw [show ChgPassWorker.keyslotChangeByPassphrase creds env.oldPass env.newPass =
        (kSuccess, env.newPass :: creds.erase env.oldPass) from by
      unfold ChgPassWorker.keyslotChangeByPassphrase
      rw [if_pos hold]]
    rw [if_pos ⟨htok, rfl⟩, if_pos hfail]
    rw [show ChgPassWorker.keyslotChangeByPassphrase
        ((kSuccess, env.newPass :: creds.erase env.oldPass).2) env.newPass
          env.oldPass =
        (kSuccess, env.oldPass :: creds.erase env.oldPass) from by
      unfold ChgPassWorker.keyslotChangeByPassphrase
      rw [if_pos (List.mem_cons_self _ _)]
      simp [List.erase_cons_head]]
    exact ⟨rfl, List.mem_cons_self _ _⟩

/-- C4 witness: concrete round trip old to new and back after a failing
token write, by applying the theorem. -/
theorem C4_token_failure_restores_old_passphrase_witness :
    (ChgPassWorker.run ⟨"old-pass", "new-pass", "tok", false, -30⟩ ["old-pass"]).1 =
        (-30 : Int) ∧
      "old-pass" ∈
        (ChgPassWorker.run ⟨"old-pass", "new-pass", "tok", false, -30⟩
          ["old-pass"]).2 :=
  C4_token_failure_restores_old_passphrase
    ⟨"old-pass", "new-pass", "tok", false, -30⟩ ["old-pass"]
    (by decide) (by decide) (by decide)

open PrencryptWorker in
/-- C5 evaluation: a deferred (params-only) prepare-encrypt run
persists the job config and applies the fstab timeout tuning, but its
exit code is -kSuccess, which is 0, while the symmetric deferred
decrypt path of the same codebase returns -kRebootRequired: the
RebootRequired result the claim (and the spec) promises never surfaces
from the deferred encrypt path. -/
theorem C5_deferred_prepare_exit_code :
    (PrencryptWorker.run
        ⟨⟨"/dev/sdb1", "u1", "data", "/mnt", "aes", 0, "", "", "", "p", true⟩,
          false, true, "/dev/sdb1 /mnt ext4 defaults 0 1\n".toList, true,
          ⟨true, ⟨true, "ext4", "", false, false⟩,
            ⟨"/dev/sdb1", ⟨true, true⟩, 0, 0, 0, 0, "", 0, 0, 0, 0⟩⟩,
          ⟨0, 0⟩, true⟩).exitCode = -kSuccess
    ∧ -kSuccess = (0 : Int)
    ∧ (PrencryptWorker.run
        ⟨⟨"/dev/sdb1", "u1", "data", "/mnt", "aes", 0, "", "", "", "p", true⟩,
          false, true, "/dev/sdb1 /mnt ext4 defaults 0 1\n".toList, true,
          ⟨true, ⟨true, "ext4", "", false, false⟩,
            ⟨"/dev/sdb1", ⟨true, true⟩, 0, 0, 0, 0, "", 0, 0, 0, 0⟩⟩,
          ⟨0, 0⟩, true⟩).events = [.configWrite, .fstabWrite]
    ∧ (PrencryptWorker.run
        ⟨⟨"/dev/sdb1", "u1", "data", "/mnt", "aes", 0, "", "", "", "p", true⟩,
          false, true, "/dev/sdb1 /mnt ext4 defaults 0 1\n".toList, true,
          ⟨true, ⟨true, "ext4", "", false, false⟩,
            ⟨"/dev/sdb1", ⟨true, true⟩, 0, 0, 0, 0, "", 0, 0, 0, 0⟩⟩,
          ⟨0, 0⟩, true⟩).fstabOut =
        "/dev/sdb1\t/mnt\text4\tdefaults,x-systemd.device-timeout=0\t0\t1\n\n".toList
    ∧ DecryptWorker.writeDecryptParamsCode true = -kRebootRequired
    ∧ -kRebootRequired ≠ -kSuccess := by
  decide

open disk_encrypt_funcs in
/-- Helper: the header backup emits no decrypt progress signal. -/
theorem backup_no_sig (e : BackupEnv) (d : String) (q : ℚ) :
    Event.sigDec d q ∉ (bcBackupCryptHeader e).2 := by
  unfold bcBackupCryptHeader
  split_ifs <;> simp

set_option maxHeartbeats 1000000 in
open disk_encrypt_funcs in
/-- C9: every encrypt progress signal emitted during a resume
reencryption of a device carries exactly that device (the one recorded
in the process-wide current-device variable when the operation started)
and the fraction offset / size of one of the callback invocations, and
likewise every decrypt progress signal emitted during a decrypt of a
device. -/
theorem C9_progress_carries_device_and_fraction :
    (∀ (g : Globals) (device : String) (expandFs : Bool) (env : ResumeEnv)
      (d : String) (q : ℚ),
      Event.sigEnc d q ∈ (bcResumeReencrypt g device expandFs env).events →
      d = device ∧ ∃ p ∈ env.progress, q = (p.2 : ℚ) / (p.1 : ℚ))
    ∧ (∀ (g : Globals) (device : String) (env : DecryptEnv) (d : String) (q : ℚ),
      Event.sigDec d q ∈ (bcDecryptDevice g device env).2.2 →
      d = device ∧ ∃ p ∈ env.progress, q = (p.2 : ℚ) / (p.1 : ℚ)) := by
  constructor
  · intro g device expandFs env d q hmem
    unfold bcResumeReencrypt bcEncryptProgress at hmem
    split_ifs at hmem <;> simp at hmem <;>
      (obtain ⟨a, b, hab, hd, hq⟩ := hmem
       exact ⟨hd.symm, ⟨(a, b), hab, hq.symm⟩⟩)
  · intro g device env d q hmem
    unfold bcDecryptDevice bcDecryptProgress at hmem
    rcases hb : bcBackupCryptHeader env.backup with ⟨bc, bev⟩
    rw [hb] at hmem
    have hnb := backup_no_sig env.backup d q
    rw [hb] at hnb
    simp only at hmem hnb
    split_ifs at hmem <;> simp [hnb] at hmem <;>
      (obtain ⟨a, b, hab, hd, hq⟩ := hmem
       exact ⟨hd.symm, ⟨(a, b), hab, hq.symm⟩⟩)

open disk_encrypt_funcs in
/-- C9 witness: a resume of /dev/sdb1 with one callback invocation at
offset 50 of size 100 yields a signal attributed to /dev/sdb1 with
fraction 50/100, and likewise for a decrypt run. -/
theorem C9_progress_carries_device_and_fraction_witness :
    ("/dev/sdb1" = "/dev/sdb1" ∧
      ∃ p ∈ [((100 : Nat), (50 : Nat))],
        ((50 : ℚ) / (100 : ℚ)) = (p.2 : ℚ) / (p.1 : ℚ))
    ∧ ("/dev/sdb1" = "/dev/sdb1" ∧
      ∃ p ∈ [((100 : Nat), (50 : Nat))],
        ((50 : ℚ) / (100 : ℚ)) = (p.2 : ℚ) / (p.1 : ℚ)) :=
  ⟨C9_progress_carries_device_and_fraction.1 ⟨"", ""⟩ "/dev/sdb1" false
      ⟨⟨0, 0, 0, ⟨false, true, false⟩⟩, 0, [(100, 50)], 0, 0, 0⟩
      "/dev/sdb1" ((50 : ℚ) / (100 : ℚ))
      (by norm_num [bcResumeReencrypt, bcEncryptProgress]),
    C9_progress_carries_device_and_fraction.2 ⟨"", ""⟩ "/dev/sdb1"
      ⟨⟨0, 0⟩, ⟨0, 0, 0, ⟨false, false, false⟩⟩, 0, [(100, 50)], 0, true⟩
      "/dev/sdb1" ((50 : ℚ) / (100 : ℚ))
      (by norm_num [bcDecryptDevice, bcDecryptProgress, bcBackupCryptHeader,
        kSuccess])⟩

namespace DiskEncryptDBus

theorem linePruned_nil (env : CrypttabEnv) : linePruned env [] = false := rfl

theorem keep_not_pruned (env : CrypttabEnv) (line : List Char)
    (hk : lineKeep env line = true) : linePruned env line = false := by
  unfold lineKeep at hk
  unfold linePruned
  by_cases hh : startsHash line = true
  · rw [hh]
    rfl
  · have hh2 : startsHash line = false := by simpa using hh
    rw [hh2] at hk ⊢
    simp only [if_false, Bool.false_eq_true] at hk
    by_cases hlen : (splitWs line).length < 2
    · rw [if_pos hlen] at hk
      cases hk
    · rw [if_neg hlen] at hk
      simp only [Bool.not_eq_true'] at hk
      have hk2 : ¬(env.isEnc ((splitWs line).getD 0 [])
          ((splitWs line).getD 1 []) = 0) := by
        simpa using hk
      simp
      intro _
      simpa using hk2

end DiskEncryptDBus

/-- C8: crypttab reconciliation is idempotent under a fixed
device-probe oracle: a second run on the output of a first run never
writes the file, and any run in which no line was pruned as
not-encrypted skips the file write entirely and leaves the contents
untouched. -/
theorem C8_crypttab_reconciliation_idempotent
    (env : DiskEncryptDBus.CrypttabEnv) (content : List Char) :
    DiskEncryptDBus.updateCrypttab env
        (DiskEncryptDBus.updateCrypttab env content).1 =
      ((DiskEncryptDBus.updateCrypttab env content).1, false)
    ∧ ((content.splitOnP (· == '\n')).any (DiskEncryptDBus.linePruned env) =
        false →
      DiskEncryptDBus.updateCrypttab env content = (content, false)) := by
  have hskip : ∀ c : List Char,
      (c.splitOnP (· == '\n')).any (DiskEncryptDBus.linePruned env) = false →
      DiskEncryptDBus.updateCrypttab env c = (c, false) := by
    intro c hc
    unfold DiskEncryptDBus.updateCrypttab
    simp only [hc, Bool.false_eq_true, if_false]
  refine ⟨?_, hskip content⟩
  by_cases hw : (content.splitOnP (· == '\n')).any (DiskEncryptDBus.linePruned env) =
      true
  · have h1 : DiskEncryptDBus.updateCrypttab env content =
        (joinSep '\n'
          ((content.splitOnP (· == '\n')).filter (DiskEncryptDBus.lineKeep env)) ++
            ['\n'], true) := by
      unfold DiskEncryptDBus.updateCrypttab
      rw [if_pos hw]
    rw [h1]
    simp only
    set kept := (content.splitOnP (· == '\n')).filter (DiskEncryptDBus.lineKeep env)
      with hkept
    have hkeptKeep : ∀ l ∈ kept, DiskEncryptDBus.lineKeep env l = true := by
      intro l hl
      exact List.of_mem_filter hl
    apply hskip
    have hnl : ∀ l ∈ kept, ∀ c ∈ l, (c == '\n') = false := by
      intro l hl c hc
      exact splitOnP_all_not (· == '\n') content l
        (List.mem_of_mem_filter hl) c hc
    cases hke : kept with
    | nil =>
      rw [show joinSep '\n' ([] : List (List Char)) ++ ['\n'] = ['\n'] from rfl]
      rfl
    | cons k ks =>
      rw [← hke]
      rw [joinSep_concat_sep '\n' kept (by rw [hke]; exact List.cons_ne_nil k ks)]
      rw [splitOnP_joinLines (· == '\n') '\n' rfl kept hnl]
      rw [List.any_append]
      have h2 : kept.any (DiskEncryptDBus.linePruned env) = false := by
        rw [List.any_eq_false]
        intro l hl
        rw [DiskEncryptDBus.keep_not_pruned env l (hkeptKeep l hl)]
        simp
      rw [h2]
      rfl
  · have hw2 : (content.splitOnP (· == '\n')).any (DiskEncryptDBus.linePruned env) =
        false := by simpa using hw
    rw [hskip content hw2]
    exact hskip content hw2

/-- C8 witness: with a probe that reports every device encrypted, a
concrete crypttab is left untouched and a second run writes nothing,
by applying the theorem. -/
theorem C8_crypttab_reconciliation_idempotent_witness :
    DiskEncryptDBus.updateCrypttab ⟨fun _ _ => 1⟩
        (DiskEncryptDBus.updateCrypttab ⟨fun _ _ => 1⟩ "# c\nx y\n".toList).1 =
      ((DiskEncryptDBus.updateCrypttab ⟨fun _ _ => 1⟩ "# c\nx y\n".toList).1,
        false)
    ∧ DiskEncryptDBus.updateCrypttab ⟨fun _ _ => 1⟩ "# c\nx y\n".toList =
        ("# c\nx y\n".toList, false) :=
  ⟨(C8_crypttab_reconciliation_idempotent ⟨fun _ _ => 1⟩ "# c\nx y\n".toList).1,
    (C8_crypttab_reconciliation_idempotent ⟨fun _ _ => 1⟩ "# c\nx y\n".toList).2
      (by decide)⟩

set_option maxHeartbeats 1000000 in
/-- C7: the deferred job-config object is written with exactly the ten
keys volume, device, device-path, device-name, device-mountpoint,
cipher, key-size, mode, recoverykey-path and tpm-config; and the fstab
timeout tuning is idempotent whenever at most one fstab line matches
the device: a second invocation with the same parameters appends no
second timeout option and leaves the file byte-for-byte unchanged,
skipping the write entirely. -/
theorem C7_jobconfig_keys_and_fstab_idempotent :
    (∀ p : PrencryptWorker.PrepParams,
      (PrencryptWorker.encryptParamsObj p).map Prod.fst =
        ["volume", "device", "device-path", "device-name", "device-mountpoint",
          "cipher", "key-size", "mode", "recoverykey-path", "tpm-config"])
    ∧ ∀ (dev uuid content : List Char),
      List.countP (fun line => PrencryptWorker.fstabMatch dev uuid (splitWs line))
          (content.splitOnP (· == '\n')) ≤ 1 →
      PrencryptWorker.setFstabTimeout dev uuid
          (PrencryptWorker.setFstabTimeout dev uuid content).1 =
        ((PrencryptWorker.setFstabTimeout dev uuid content).1, false) := by
  constructor
  · intro p
    rfl
  · intro dev uuid content hcount
    rcases hr : PrencryptWorker.annotateLines dev uuid
        (content.splitOnP (· == '\n')) false with ⟨itemss, found⟩
    have h1 : PrencryptWorker.setFstabTimeout dev uuid content =
        (if found then (joinLines '\n' (itemss.map (joinSep '\t')), true)
         else (content, false)) := by
      simp only [PrencryptWorker.setFstabTimeout]
      rw [hr]
    cases found with
    | false =>
      rw [h1]
      simp only [Bool.false_eq_true, if_false]
      rw [h1]
      simp only [Bool.false_eq_true, if_false]
    | true =>
      rw [h1]
      simp only [if_true]
      have hlines_nl : ∀ l ∈ content.splitOnP (· == '\n'), '\n' ∉ l := by
        intro l hl hm
        have := splitOnP_all_not (· == '\n') content l hl '\n' hm
        simp at this
      have hgood : ∀ its ∈ itemss, ∀ x ∈ its, goodItem x := by
        have hg := PrencryptWorker.annotateLines_good dev uuid
          (content.splitOnP (· == '\n')) false hlines_nl
        rw [hr] at hg
        exact hg
      have hpost : ∀ its ∈ itemss,
          PrencryptWorker.fstabMatch dev uuid its = true →
          hasSub PrencryptWorker.kTimeoutParam (its.getD 3 []) = true := by
        have hp := PrencryptWorker.annotateLines_post dev uuid
          (content.splitOnP (· == '\n')) hcount
        rw [hr] at hp
        exact hp
      have hl2 : (joinLines '\n' (itemss.map (joinSep '\t'))).splitOnP (· == '\n') =
          itemss.map (joinSep '\t') ++ [[]] := by
        apply splitOnP_joinLines (· == '\n') '\n' rfl
        intro l hl c hc
        rcases List.mem_map.mp hl with ⟨its, hits, hjoin⟩
        subst hjoin
        rcases mem_joinSep '\t' its c hc with h | ⟨x, hx, hcx⟩
        · subst h
          rfl
        · have hg := hgood its hits x hx
          have hne : c ≠ '\n' := (hg.2 c hcx).2
          simpa using hne
      have hnotrig : ∀ line ∈ itemss.map (joinSep '\t') ++ [[]],
          PrencryptWorker.fstabMatch dev uuid (splitWs line) = true →
          hasSub PrencryptWorker.kTimeoutParam ((splitWs line).getD 3 []) =
            true := by
        intro line hl hm
        rcases List.mem_append.mp hl with h | h
        · rcases List.mem_map.mp h with ⟨its, hits, hjoin⟩
          subst hjoin
          have hsp : splitWs (joinSep '\t' its) = its :=
            splitWs_joinSep_tab its fun x hx =>
              ⟨(hgood its hits x hx).1,
                fun c hc => ((hgood its hits x hx).2 c hc).1⟩
          rw [hsp] at hm ⊢
          exact hpost its hits hm
        · simp only [List.mem_singleton] at h
          subst h
          rw [show splitWs [] = [] from rfl] at hm
          simp [PrencryptWorker.fstabMatch] at hm
      simp only [PrencryptWorker.setFstabTimeout]
      rw [hl2, PrencryptWorker.annotateLines_no_trigger dev uuid
        (itemss.map (joinSep '\t') ++ [[]]) false hnotrig]
      rfl

/-- C7 witness: a concrete fstab with a single matching line is changed
only once; the second invocation writes nothing, by applying the
theorem. -/
theorem C7_jobconfig_keys_and_fstab_idempotent_witness :
    PrencryptWorker.setFstabTimeout "/dev/sdb1".toList "UUID=u1".toList
        (PrencryptWorker.setFstabTimeout "/dev/sdb1".toList "UUID=u1".toList
          "/dev/sdb1 /mnt ext4 defaults 0 1\n".toList).1 =
      ((PrencryptWorker.setFstabTimeout "/dev/sdb1".toList "UUID=u1".toList
        "/dev/sdb1 /mnt ext4 defaults 0 1\n".toList).1, false) :=
  C7_jobconfig_keys_and_fstab_idempotent.2 "/dev/sdb1".toList "UUID=u1".toList
    "/dev/sdb1 /mnt ext4 defaults 0 1\n".toList (by decide)
